import Mathlib

/-!
Verification of the NanoMolEditor core (a 2D molecular structure editor).

The definitions below are a shallow embedding of the editor's source:
2D vector helpers, the molecular graph model (atoms, bonds, valence and
implicit hydrogens, label formatting), the history stack, the view
transform, the pointer-interaction commit paths, and the bond geometry
renderer.  Coordinates are real numbers; JavaScript's trigonometric
functions are modelled by Mathlib's real functions; the random id
generator is modelled by an explicit fresh-id parameter (uniqueness is
its only contract).  Definitions whose names start with `claimed` or
`amended` transcribe sentences of the specification (not the source) so
that the source's behaviour can be compared against them.
-/

namespace NanoMol

/-- A 2D point or vector, world coordinates. -/
structure V2 where
  x : ℝ
  y : ℝ

namespace vec

def add (v1 v2 : V2) : V2 := ⟨v1.x + v2.x, v1.y + v2.y⟩

def sub (v1 v2 : V2) : V2 := ⟨v1.x - v2.x, v1.y - v2.y⟩

def scale (v : V2) (s : ℝ) : V2 := ⟨v.x * s, v.y * s⟩

noncomputable def len (v : V2) : ℝ := Real.sqrt (v.x * v.x + v.y * v.y)

/-- `vec.norm`: zero vector when the length is zero, as in the source. -/
noncomputable def norm (v : V2) : V2 :=
  if len v = 0 then ⟨0, 0⟩ else ⟨v.x / len v, v.y / len v⟩

def dot (v1 v2 : V2) : ℝ := v1.x * v2.x + v1.y * v2.y

def cross (v1 v2 : V2) : ℝ := v1.x * v2.y - v1.y * v2.x

/-- Angle between two vectors, 0 to π; the argument of `acos` is clamped
to [-1, 1] as in the source. -/
noncomputable def angle (v1 v2 : V2) : ℝ :=
  Real.arccos (max (-1) (min 1 (dot (norm v1) (norm v2))))

end vec

noncomputable def distance (a b : V2) : ℝ := vec.len (vec.sub a b)

/-- The supported chemical elements. -/
inductive Element where
  | C | N | O | H | S | Cl | F | P | Br | I
deriving DecidableEq, Repr

def VALENCE : Element → ℕ
  | .C => 4 | .N => 3 | .O => 2 | .H => 1 | .S => 2
  | .Cl => 1 | .F => 1 | .P => 5 | .Br => 1 | .I => 1

def elementSymbol : Element → String
  | .C => "C" | .N => "N" | .O => "O" | .H => "H" | .S => "S"
  | .Cl => "Cl" | .F => "F" | .P => "P" | .Br => "Br" | .I => "I"

/-- Digit-to-subscript-glyph map; a character that is no digit passes through. -/
def toSubscriptChar (c : Char) : Char :=
  if c = '0' then '₀' else if c = '1' then '₁' else if c = '2' then '₂'
  else if c = '3' then '₃' else if c = '4' then '₄' else if c = '5' then '₅'
  else if c = '6' then '₆' else if c = '7' then '₇' else if c = '8' then '₈'
  else if c = '9' then '₉' else c

def toSubscript (num : ℕ) : String :=
  String.mk ((toString num).data.map toSubscriptChar)

structure AtomData where
  id : String
  x : ℝ
  y : ℝ
  element : Element

structure BondData where
  id : String
  source : String
  target : String
  type : ℕ
deriving DecidableEq, Repr

/-- The bonds incident to an atom (`getAtomLabel`'s `connectedBonds`). -/
def connectedBonds (atom : AtomData) (bonds : List BondData) : List BondData :=
  bonds.filter fun b => b.source == atom.id || b.target == atom.id

/-- Sum of the incident bond orders (`currentValence` in `getAtomLabel`). -/
def currentValence (atom : AtomData) (bonds : List BondData) : ℤ :=
  ((connectedBonds atom bonds).map fun b => (b.type : ℤ)).sum

/-- `implicitH` of the source: table valence minus used valence, floored at 0. -/
def implicitHydrogenCount (atom : AtomData) (bonds : List BondData) : ℤ :=
  max 0 ((VALENCE atom.element : ℤ) - currentValence atom bonds)

/-- `getAtomLabel`: `none` models the source's `null` (skeletal carbon). -/
def getAtomLabel (atom : AtomData) (bonds : List BondData) : Option String :=
  let connected := connectedBonds atom bonds
  let currentV := currentValence atom bonds
  let implicitH := max 0 ((VALENCE atom.element : ℤ) - currentV)
  if atom.element = Element.C then
    if connected.length = 0 then some ("CH" ++ toSubscript 4) else none
  else
    let label := elementSymbol atom.element
    let labelH :=
      if 0 < implicitH then
        (if atom.element = Element.H then toSubscript 2 else "H") ++
          (if 1 < implicitH then toSubscript implicitH.toNat else "")
      else ""
    if currentV = 0 ∧ atom.element ≠ Element.N ∧ atom.element ≠ Element.H then
      some (labelH ++ label)
    else
      some (label ++ labelH)

/-! ## History stack -/

structure HistoryState where
  atoms : List AtomData
  bonds : List BondData

/-- The slice of the editor's state the history operations read and write. -/
structure EState where
  atoms : List AtomData
  bonds : List BondData
  history : List HistoryState
  historyIndex : ℕ

/-- `commitToHistory`: truncate beyond the index, append, advance, replace. -/
def commitToHistory (st : EState) (newAtoms : List AtomData)
    (newBonds : List BondData) : EState :=
  let newHistory := st.history.take (st.historyIndex + 1) ++ [⟨newAtoms, newBonds⟩]
  { atoms := newAtoms, bonds := newBonds,
    history := newHistory, historyIndex := newHistory.length - 1 }

/-- `undo`: no-op at index 0, otherwise step back and restore that entry. -/
def undo (st : EState) : EState :=
  if 0 < st.historyIndex then
    let prev := st.history.getD (st.historyIndex - 1) ⟨[], []⟩
    { st with atoms := prev.atoms, bonds := prev.bonds,
              historyIndex := st.historyIndex - 1 }
  else st

/-- `redo`: no-op at the last index, otherwise step forward and restore. -/
def redo (st : EState) : EState :=
  if st.historyIndex < st.history.length - 1 then
    let next := st.history.getD (st.historyIndex + 1) ⟨[], []⟩
    { st with atoms := next.atoms, bonds := next.bonds,
              historyIndex := st.historyIndex + 1 }
  else st

/-! ## Interaction commit paths -/

/-- The bond-order cycle 1 → 2 → 3 → 1 (`nextType` in both handlers). -/
def nextBondType (t : ℕ) : ℕ := if t = 1 then 2 else if t = 2 then 3 else 1

/-- Erase tool hitting an atom: remove it and every incident bond. -/
def eraseAtomCommit (atoms : List AtomData) (bonds : List BondData)
    (aid : String) : List AtomData × List BondData :=
  (atoms.filter fun a => a.id != aid,
   bonds.filter fun b => b.source != aid && b.target != aid)

/-- Erase tool hitting a bond: remove only that bond. -/
def eraseBondCommit (atoms : List AtomData) (bonds : List BondData)
    (bid : String) : List AtomData × List BondData :=
  (atoms, bonds.filter fun b => b.id != bid)

/-- Draw tool hitting a bond: cycle that bond's order. -/
def cycleBondClickCommit (atoms : List AtomData) (bonds : List BondData)
    (bid : String) : List AtomData × List BondData :=
  (atoms, bonds.map fun b =>
    if b.id == bid then { b with type := nextBondType b.type } else b)

/-- Draw tool, short drag (click): relabel the anchor atom. -/
def relabelCommit (atoms : List AtomData) (bonds : List BondData)
    (aid : String) (el : Element) : List AtomData × List BondData :=
  (atoms.map (fun a => if a.id == aid then { a with element := el } else a), bonds)

/-- Select tool, pointer move: the dragged atom follows the pointer. -/
def moveAtomUpdate (atoms : List AtomData) (aid : String) (p : V2) :
    List AtomData :=
  atoms.map fun a => if a.id == aid then { a with x := p.x, y := p.y } else a

/-- Draw tool, genuine drag end (`handlePointerUp`): resolve the other
endpoint (the snap target, else a fresh atom at the pointer), then cycle an
existing bond between the two atoms or create a new order-1 bond.  The
source's random ids are modelled by the `freshAtomId`/`freshBondId`
parameters. -/
def dragEndCommit (atoms : List AtomData) (bonds : List BondData)
    (dragStartId : String) (pointerPos : V2) (snapTargetId : Option String)
    (activeEl : Element) (freshAtomId freshBondId : String) :
    List AtomData × List BondData :=
  let resolved : List AtomData × String :=
    match snapTargetId with
    | some tid => (atoms, tid)
    | none =>
        (atoms ++ [⟨freshAtomId, pointerPos.x, pointerPos.y, activeEl⟩],
         freshAtomId)
  let newAtoms := resolved.1
  let targetId := resolved.2
  if targetId ≠ dragStartId then
    match bonds.findIdx? (fun b =>
        (b.source == dragStartId && b.target == targetId) ||
        (b.source == targetId && b.target == dragStartId)) with
    | some i =>
        let b := bonds.getD i (⟨"", "", "", 1⟩ : BondData)
        (newAtoms, bonds.set i { b with type := nextBondType b.type })
    | none =>
        (newAtoms, bonds ++ [⟨freshBondId, dragStartId, targetId, 1⟩])
  else (newAtoms, bonds)

/-- Every bond endpoint id refers to an atom of the same snapshot. -/
def Closed (atoms : List AtomData) (bonds : List BondData) : Prop :=
  ∀ b ∈ bonds, (∃ a ∈ atoms, a.id = b.source) ∧ (∃ a ∈ atoms, a.id = b.target)

/-! ## View transform -/

structure ViewState where
  x : ℝ
  y : ℝ
  k : ℝ

/-- `getPointerCoords`: screen (relative to the canvas) to world coordinates. -/
noncomputable def screenToWorld (view : ViewState) (relX relY : ℝ) : V2 :=
  ⟨(relX - view.x) / view.k, (relY - view.y) / view.k⟩

/-- `handleWheel`: zoom by the wheel delta, clamped to [0.1, 5], keeping the
world point under the mouse stationary. -/
noncomputable def handleWheel (view : ViewState) (deltaY mouseX mouseY : ℝ) :
    ViewState :=
  let scaleFactor := 1 - deltaY * 0.001
  let newK := max 0.1 (min 5 (view.k * scaleFactor))
  let worldX := (mouseX - view.x) / view.k
  let worldY := (mouseY - view.y) / view.k
  ⟨mouseX - worldX * newK, mouseY - worldY * newK, newK⟩

/-! ## Draw-gesture snapping -/

/-- JavaScript's `Math.atan2(y, x)`, the angle of the point (x, y). -/
noncomputable def atan2 (y x : ℝ) : ℝ := Complex.arg ⟨x, y⟩

/-- `snapToAngle`: the point at the standard bond length from (x1, y1) in the
direction of (x2, y2) snapped to a multiple of 30 degrees. -/
noncomputable def snapToAngle (x1 y1 x2 y2 : ℝ) : V2 :=
  let angle := atan2 (y2 - y1) (x2 - x1)
  let snap := Real.pi / 6
  let snappedAngle := (round (angle / snap) : ℤ) * snap
  let standardLen : ℝ := 40 * 1.5
  ⟨x1 + Real.cos snappedAngle * standardLen,
   y1 + Real.sin snappedAngle * standardLen⟩

/-- The drag anchor: an atom id and its world position. -/
structure DragStart where
  id : String
  x : ℝ
  y : ℝ

/-- The snap-candidate predicate of `handlePointerMove`: another atom within
the snap radius of the raw pointer or of the snapped candidate. -/
noncomputable def snapCandidate (dragStart : DragStart) (coords snappedPos : V2)
    (a : AtomData) : Bool :=
  a.id != dragStart.id &&
    (decide (distance ⟨a.x, a.y⟩ coords < 20) ||
     decide (distance ⟨a.x, a.y⟩ snappedPos < 20))

/-- `handlePointerMove`, draw tool with an active drag: the new tracked
pointer position and snap target id. -/
noncomputable def drawMove (atoms : List AtomData) (dragStart : DragStart)
    (coords : V2) : V2 × Option String :=
  let snappedPos := snapToAngle dragStart.x dragStart.y coords.x coords.y
  match atoms.find? (snapCandidate dragStart coords snappedPos) with
  | some t => (⟨t.x, t.y⟩, some t.id)
  | none => (snappedPos, none)

/-! ## External value-in contract (prop sync) -/

inductive ToolType where
  | select | draw | erase
deriving DecidableEq, Repr

/-- A field of the host-supplied value object that should be an array:
missing, present but not array-shaped, or an array. -/
inductive JsArrayField (α : Type) where
  | missing
  | notArray
  | arr (xs : List α)

/-- The host-supplied (possibly partial) state object. -/
structure ValueIn where
  atoms : JsArrayField AtomData
  bonds : JsArrayField BondData
  history : Option (List HistoryState)
  historyIndex : Option ℕ
  tool : Option ToolType
  activeElement : Option Element
  view : Option ViewState

/-- The full editor state the prop-sync effect can replace. -/
structure FullState where
  atoms : List AtomData
  bonds : List BondData
  history : List HistoryState
  historyIndex : ℕ
  tool : ToolType
  activeElement : Element
  view : ViewState

/-- What `JSON.stringify` serialises in the prop-sync comparison: the current
state is serialised without a `view` key, the incoming one with it, so the
`view` component is an `Option` (`none` models the absent key). -/
structure SyncRepr where
  atoms : List AtomData
  bonds : List BondData
  historyIndex : ℕ
  tool : ToolType
  activeElement : Element
  view : Option ViewState

open Classical in
/-- The prop-sync effect: validate that atoms and bonds are array-shaped
(else change nothing), compare the serialised current and incoming states,
and on a difference adopt every provided field, defaulting missing fields to
the current values. -/
noncomputable def propSync (st : FullState) (value : ValueIn) : FullState :=
  match value.atoms, value.bonds with
  | .arr newAtoms, .arr newBonds =>
      let idxNew := value.historyIndex.getD st.historyIndex
      let toolNew := value.tool.getD st.tool
      let elNew := value.activeElement.getD st.activeElement
      let viewNew := value.view.getD st.view
      let currentJSON : SyncRepr :=
        ⟨st.atoms, st.bonds, st.historyIndex, st.tool, st.activeElement, none⟩
      let newJSON : SyncRepr :=
        ⟨newAtoms, newBonds, idxNew, toolNew, elNew, some viewNew⟩
      if currentJSON = newJSON then st
      else
        { atoms := newAtoms, bonds := newBonds,
          history := value.history.getD st.history,
          historyIndex := idxNew, tool := toolNew, activeElement := elNew,
          view := viewNew }
  | _, _ => st

/-! ## Bond geometry renderer -/

/-- One rendered line segment. -/
structure Seg where
  x1 : ℝ
  y1 : ℝ
  x2 : ℝ
  y2 : ℝ

/-- The accumulator of `getMinAngle`: minimal angle and existence flag on
each side of the bond axis (999 is the source's sentinel). -/
structure MinAngleResult where
  minRight : ℝ
  minLeft : ℝ
  existsRight : Bool
  existsLeft : Bool

/-- The neighbor bonds of `atomId` other than `b` itself. -/
def neighborBonds (bonds : List BondData) (b : BondData) (atomId : String) :
    List BondData :=
  bonds.filter fun bond =>
    (bond.source == atomId || bond.target == atomId) && bond.id != b.id

/-- The vectors from `myPos` to the other endpoint of each neighbor bond of
`atomId`; a missing other atom yields the zero vector, as in the source. -/
def neighborVecs (atoms : List AtomData) (bonds : List BondData)
    (b : BondData) (atomId : String) (myPos : V2) : List V2 :=
  (neighborBonds bonds b atomId).map fun bond =>
    let otherId := if bond.source == atomId then bond.target else bond.source
    match atoms.find? (fun a => a.id == otherId) with
    | some other => vec.sub ⟨other.x, other.y⟩ myPos
    | none => ⟨0, 0⟩

/-- One step of `getMinAngle`'s `forEach`: classify the neighbor by the sign
of its cross product with the (unflipped) axis and update that side's
minimal angle, measured against `myAxis`. -/
noncomputable def minAngleStep (axis myAxis : V2) (acc : MinAngleResult)
    (nb : V2) : MinAngleResult :=
  let cross := vec.cross axis nb
  let ang := vec.angle myAxis nb
  if 0 < cross then
    { acc with minRight := if ang < acc.minRight then ang else acc.minRight,
               existsRight := true }
  else
    { acc with minLeft := if ang < acc.minLeft then ang else acc.minLeft,
               existsLeft := true }

/-- The whole `forEach` of `getMinAngle`, from the source's initial
accumulator (the 999 sentinels and absent-side flags). -/
noncomputable def minAngleFold (axis myAxis : V2) (nbs : List V2) :
    MinAngleResult :=
  nbs.foldl (minAngleStep axis myAxis) ⟨999, 999, false, false⟩

/-- `getMinAngle`: per-side minimal neighbor angles at one endpoint of bond
`b`.  The axis is flipped for the target endpoint when measuring angles, but
not when classifying sides. -/
noncomputable def getMinAngle (atoms : List AtomData) (bonds : List BondData)
    (atomId : String) (s t : AtomData) (b : BondData) (axis : V2) :
    MinAngleResult :=
  let myPos : V2 := if atomId == s.id then ⟨s.x, s.y⟩ else ⟨t.x, t.y⟩
  let neighbors := neighborVecs atoms bonds b atomId myPos
  let myAxis := if atomId == s.id then axis else vec.scale axis (-1)
  minAngleFold axis myAxis neighbors

/-- The trim length applied to an offset line at an endpoint (identical in
the double- and triple-bond branches of `getBondCoords`). -/
noncomputable def shortenAmount (offset len : ℝ) (r : MinAngleResult) : ℝ :=
  min (len * 0.5) (offset * Real.tan (Real.pi / 2 - min r.minRight r.minLeft / 2))

/-- One offset line of `getBondCoords`: shifted sideways by `offset` and
trimmed at an endpoint when that endpoint has a neighbor on the drawn side. -/
noncomputable def offsetSeg (s t : AtomData) (n perp : V2) (len offset : ℝ)
    (sAng tAng : MinAngleResult) (drawOnRight : Bool) : Seg :=
  let shift := if drawOnRight then offset else -offset
  let shiftVec : V2 := ⟨perp.x * shift, perp.y * shift⟩
  let p1 : V2 := ⟨s.x + shiftVec.x, s.y + shiftVec.y⟩
  let p2 : V2 := ⟨t.x + shiftVec.x, t.y + shiftVec.y⟩
  let sShorten := shortenAmount offset len sAng
  let tShorten := shortenAmount offset len tAng
  let q1 := if (if drawOnRight then sAng.existsRight else sAng.existsLeft) then
      vec.add p1 (vec.scale n sShorten) else p1
  let q2 := if (if drawOnRight then tAng.existsRight else tAng.existsLeft) then
      vec.sub p2 (vec.scale n tShorten) else p2
  ⟨q1.x, q1.y, q2.x, q2.y⟩

open Classical in
/-- `getBondCoords`: the one to three line segments rendering bond `b`;
`none` when an endpoint atom is missing or the order is not 1, 2 or 3. -/
noncomputable def getBondCoords (atoms : List AtomData)
    (bonds : List BondData) (b : BondData) : Option (List Seg) :=
  match atoms.find? (fun a => a.id == b.source),
        atoms.find? (fun a => a.id == b.target) with
  | some s, some t =>
    let v := vec.sub ⟨t.x, t.y⟩ ⟨s.x, s.y⟩
    let len := vec.len v
    let n := vec.norm v
    let perp : V2 := ⟨-n.y, n.x⟩
    let offset : ℝ := 6
    if b.type = 1 then some [⟨s.x, s.y, t.x, t.y⟩]
    else if b.type = 3 ∧ s.element ≠ Element.C ∧ t.element ≠ Element.C then
      some [⟨s.x, s.y, t.x, t.y⟩,
            ⟨s.x + perp.x * offset, s.y + perp.y * offset,
             t.x + perp.x * offset, t.y + perp.y * offset⟩,
            ⟨s.x - perp.x * offset, s.y - perp.y * offset,
             t.x - perp.x * offset, t.y - perp.y * offset⟩]
    else if b.type = 3 then
      let sAng := getMinAngle atoms bonds s.id s t b v
      let tAng := getMinAngle atoms bonds t.id s t b v
      some (⟨s.x, s.y, t.x, t.y⟩ ::
        [true, false].map fun drawOnRight =>
          offsetSeg s t n perp len offset sAng tAng drawOnRight)
    else if b.type = 2 ∧ s.element ≠ Element.C ∧ t.element ≠ Element.C then
      some [⟨s.x + perp.x * offset * 0.5, s.y + perp.y * offset * 0.5,
             t.x + perp.x * offset * 0.5, t.y + perp.y * offset * 0.5⟩,
            ⟨s.x - perp.x * offset * 0.5, s.y - perp.y * offset * 0.5,
             t.x - perp.x * offset * 0.5, t.y - perp.y * offset * 0.5⟩]
    else if b.type = 2 then
      let sAng := getMinAngle atoms bonds s.id s t b v
      let tAng := getMinAngle atoms bonds t.id s t b v
      let scoreRight := (if sAng.existsRight then sAng.minRight else Real.pi) +
                        (if tAng.existsRight then tAng.minRight else Real.pi)
      let scoreLeft := (if sAng.existsLeft then sAng.minLeft else Real.pi) +
                       (if tAng.existsLeft then tAng.minLeft else Real.pi)
      let drawOnRight := decide (scoreRight < scoreLeft)
      some [⟨s.x, s.y, t.x, t.y⟩,
            offsetSeg s t n perp len offset sAng tAng drawOnRight]
    else none
  | _, _ => none

/-- The advanced double-bond offset segment of `getBondCoords` (order 2 with
at least one carbon endpoint), as the source computes it. -/
noncomputable def doubleBondSeg (atoms : List AtomData) (bonds : List BondData)
    (b : BondData) (s t : AtomData) : Seg :=
  let v := vec.sub ⟨t.x, t.y⟩ ⟨s.x, s.y⟩
  let sAng := getMinAngle atoms bonds s.id s t b v
  let tAng := getMinAngle atoms bonds t.id s t b v
  let scoreRight := (if sAng.existsRight then sAng.minRight else Real.pi) +
                    (if tAng.existsRight then tAng.minRight else Real.pi)
  let scoreLeft := (if sAng.existsLeft then sAng.minLeft else Real.pi) +
                   (if tAng.existsLeft then tAng.minLeft else Real.pi)
  offsetSeg s t (vec.norm v) ⟨-(vec.norm v).y, (vec.norm v).x⟩ (vec.len v) 6
    sAng tAng (decide (scoreRight < scoreLeft))

/-! ## Definitions transcribed from the specification's words

These follow the sentences of the specification (and of the claims drawn
from it), to be compared against the source's behaviour above. -/

/-- Spec sentence, trim distance: `min(half the bond length,
offset / tan((π − θ) / 2))`. -/
noncomputable def claimedTrim (offset len θ : ℝ) : ℝ :=
  min (len * 0.5) (offset / Real.tan ((Real.pi - θ) / 2))

/-- The trim distance the source actually applies:
`min(half the bond length, offset * tan((π − θ) / 2))`. -/
noncomputable def amendedTrim (offset len θ : ℝ) : ℝ :=
  min (len * 0.5) (offset * Real.tan ((Real.pi - θ) / 2))

/-- Spec sentence: a neighbor bond lies on the given side of the bond axis
when the sign of its cross product with the axis says so (`right` when the
cross product is positive). -/
noncomputable def sideHasNeighbor (axis : V2) (nbs : List V2) (right : Bool) :
    Bool :=
  nbs.any fun nb => decide (0 < vec.cross axis nb) == right

/-- Spec sentence: the minimal angle, against the reference vector `ref`,
of the neighbors on the given side of the axis; π when the side is empty. -/
noncomputable def sideMinAngle (axis ref : V2) (nbs : List V2) (right : Bool) :
    ℝ :=
  (((nbs.filter fun nb => decide (0 < vec.cross axis nb) == right).map
    fun nb => vec.angle ref nb).foldr min Real.pi)

/-- The minimal angle against `ref` over all neighbors, either side (the
source's 999 sentinel when there is no neighbor at all). -/
noncomputable def allMinAngle (ref : V2) (nbs : List V2) : ℝ :=
  ((nbs.map fun nb => vec.angle ref nb).foldr min 999)

/-- Claim C1's offset segment, transcribed: shifted sideways by 6, trimmed
at an endpoint exactly when that endpoint has a same-side neighbor, by
`claimedTrim` with θ the minimal same-side angle against the (unflipped)
bond axis. -/
noncomputable def claimedSeg (s t : AtomData) (sNbs tNbs : List V2)
    (drawOnRight : Bool) : Seg :=
  let v := vec.sub ⟨t.x, t.y⟩ ⟨s.x, s.y⟩
  let len := vec.len v
  let n := vec.norm v
  let perp : V2 := ⟨-n.y, n.x⟩
  let shift : ℝ := if drawOnRight then 6 else -6
  let sTrim := if sideHasNeighbor v sNbs drawOnRight then
      claimedTrim 6 len (sideMinAngle v v sNbs drawOnRight) else 0
  let tTrim := if sideHasNeighbor v tNbs drawOnRight then
      claimedTrim 6 len (sideMinAngle v v tNbs drawOnRight) else 0
  ⟨s.x + perp.x * shift + n.x * sTrim, s.y + perp.y * shift + n.y * sTrim,
   t.x + perp.x * shift - n.x * tTrim, t.y + perp.y * shift - n.y * tTrim⟩

/-- The amended offset segment, matching the source: trimmed at an endpoint
exactly when that endpoint has a same-side neighbor, by `amendedTrim` with
θ the minimal angle over that endpoint's neighbors on both sides, measured
against the bond axis oriented away from the endpoint. -/
noncomputable def amendedSeg (s t : AtomData) (sNbs tNbs : List V2)
    (drawOnRight : Bool) : Seg :=
  let v := vec.sub ⟨t.x, t.y⟩ ⟨s.x, s.y⟩
  let len := vec.len v
  let n := vec.norm v
  let perp : V2 := ⟨-n.y, n.x⟩
  let shift : ℝ := if drawOnRight then 6 else -6
  let sTrim := if sideHasNeighbor v sNbs drawOnRight then
      amendedTrim 6 len (allMinAngle v sNbs) else 0
  let tTrim := if sideHasNeighbor v tNbs drawOnRight then
      amendedTrim 6 len (allMinAngle (vec.scale v (-1)) tNbs) else 0
  ⟨s.x + perp.x * shift + n.x * sTrim, s.y + perp.y * shift + n.y * sTrim,
   t.x + perp.x * shift - n.x * tTrim, t.y + perp.y * shift - n.y * tTrim⟩

/-- Claim C2's side score, transcribed: the sum over the two endpoints of
the minimal same-side angle between the bond axis and the endpoint's
neighbors, an empty endpoint-side contributing π; the angle is measured
against the axis vector itself at both endpoints. -/
noncomputable def claimedSideScore (s t : AtomData) (sNbs tNbs : List V2)
    (right : Bool) : ℝ :=
  let v := vec.sub ⟨t.x, t.y⟩ ⟨s.x, s.y⟩
  sideMinAngle v v sNbs right + sideMinAngle v v tNbs right

/-- The amended side score, matching the source: as `claimedSideScore`, but
at the target endpoint the angle is measured against the reversed axis (the
bond direction pointing away from that endpoint). -/
noncomputable def amendedSideScore (s t : AtomData) (sNbs tNbs : List V2)
    (right : Bool) : ℝ :=
  let v := vec.sub ⟨t.x, t.y⟩ ⟨s.x, s.y⟩
  sideMinAngle v v sNbs right + sideMinAngle v (vec.scale v (-1)) tNbs right

/-! ## Concrete configurations for witnesses and counterexamples -/

def exS : AtomData := ⟨"s", 0, 0, Element.C⟩

def exT : AtomData := ⟨"t", 100, 0, Element.C⟩

/-- A neighbor of `exS` at 60 degrees above the s→t axis. -/
noncomputable def exU : AtomData := ⟨"u", 1, Real.sqrt 3, Element.C⟩

def exB : BondData := ⟨"st", "s", "t", 2⟩

def exB2 : BondData := ⟨"su", "s", "u", 1⟩

noncomputable def exAtoms : List AtomData := [exS, exT, exU]

def exBonds : List BondData := [exB, exB2]

/-- A neighbor of `exT` at 60 degrees above the axis, ahead of it. -/
noncomputable def ex2R : AtomData := ⟨"r", 101, Real.sqrt 3, Element.C⟩

/-- A neighbor of `exT` at 120 degrees below the axis, behind it. -/
noncomputable def ex2L : AtomData := ⟨"l", 99, -Real.sqrt 3, Element.C⟩

def ex2BR : BondData := ⟨"tr", "t", "r", 1⟩

def ex2BL : BondData := ⟨"tl", "t", "l", 1⟩

noncomputable def ex2Atoms : List AtomData := [exS, exT, ex2R, ex2L]

def ex2Bonds : List BondData := [exB, ex2BR, ex2BL]

/-- A tiny closed graph: two atoms and the bond between them. -/
def wAtoms : List AtomData := [⟨"a", 0, 0, Element.C⟩, ⟨"b", 60, 0, Element.C⟩]

def wBonds : List BondData := [⟨"ab", "a", "b", 1⟩]

/-! ## Theorems -/

/-- Claim C3: `commit` truncates the entries beyond the current index,
appends the new snapshot, sets the index to the new last entry and replaces
the live graph with it; `undo` at index i > 0 restores entry i−1 and
decrements the index; `redo` at index i < last restores entry i+1 and
increments the index; `undo` at index 0 and `redo` at the last index change
nothing. -/
theorem claim_C3_theorem (st : EState) (a : List AtomData)
    (b : List BondData) :
    (commitToHistory st a b).history =
      st.history.take (st.historyIndex + 1) ++ [⟨a, b⟩] ∧
    (commitToHistory st a b).historyIndex =
      (commitToHistory st a b).history.length - 1 ∧
    (commitToHistory st a b).history.getLast? = some ⟨a, b⟩ ∧
    (commitToHistory st a b).atoms = a ∧
    (commitToHistory st a b).bonds = b ∧
    (0 < st.historyIndex →
      undo st = { st with
        atoms := (st.history.getD (st.historyIndex - 1) ⟨[], []⟩).atoms,
        bonds := (st.history.getD (st.historyIndex - 1) ⟨[], []⟩).bonds,
        historyIndex := st.historyIndex - 1 }) ∧
    (st.historyIndex = 0 → undo st = st) ∧
    (st.historyIndex < st.history.length - 1 →
      redo st = { st with
        atoms := (st.history.getD (st.historyIndex + 1) ⟨[], []⟩).atoms,
        bonds := (st.history.getD (st.historyIndex + 1) ⟨[], []⟩).bonds,
        historyIndex := st.historyIndex + 1 }) ∧
    (¬ st.historyIndex < st.history.length - 1 → redo st = st) := by
  refine ⟨rfl, rfl, ?_, rfl, rfl, fun h => ?_, fun h => ?_, fun h => ?_,
    fun h => ?_⟩
  · simp [commitToHistory]
  · simp [undo, h]
  · simp [undo, h]
  · simp [redo, h]
  · simp [redo, h]

/-- Claim C4: the implicit hydrogen count is the element's table valence
minus the sum of the incident bond orders, floored at 0; with no incident
bonds it is exactly the table valence. -/
theorem claim_C4_theorem (atom : AtomData) (bonds : List BondData) :
    implicitHydrogenCount atom bonds =
      max 0 ((VALENCE atom.element : ℤ) -
        ((connectedBonds atom bonds).map fun b => (b.type : ℤ)).sum) ∧
    (connectedBonds atom bonds = [] →
      implicitHydrogenCount atom bonds = VALENCE atom.element) := by
  refine ⟨rfl, fun h => ?_⟩
  have h0 : (0 : ℤ) ≤ (VALENCE atom.element : ℤ) := Int.natCast_nonneg _
  simp [implicitHydrogenCount, currentValence, h, max_eq_right h0]

/-- Claim C10: an H atom with no incident bonds is labelled "H₂" — for
element H with a positive implicit hydrogen count, the hydrogen part of the
label is the subscript-two glyph appended after the element symbol (the
hydrogens-before-element ordering rule is not applied to H). -/
theorem claim_C10_theorem (atom : AtomData) (bonds : List BondData) :
    (atom.element = Element.H → connectedBonds atom bonds = [] →
      getAtomLabel atom bonds = some "H₂") ∧
    (atom.element = Element.H → 0 < implicitHydrogenCount atom bonds →
      getAtomLabel atom bonds = some ("H" ++ toSubscript 2)) ∧
    toSubscript 2 = "₂" := by
  refine ⟨fun hH hconn => ?_, fun hH hpos => ?_, rfl⟩
  · have hcv : currentValence atom bonds = 0 := by
      simp [currentValence, hconn]
    simp only [getAtomLabel, hH, hcv, elementSymbol, VALENCE]
    rw [if_neg (show ¬ (Element.H = Element.C) by decide)]
    norm_num
    rfl
  · have hnn : (0 : ℤ) ≤ currentValence atom bonds := by
      refine List.sum_nonneg ?_
      intro x hx
      simp only [List.mem_map] at hx
      obtain ⟨bb, _, hbb⟩ := hx
      exact hbb ▸ Int.natCast_nonneg _
    have hcv : currentValence atom bonds = 0 := by
      have := hpos
      simp only [implicitHydrogenCount, hH, VALENCE] at this
      omega
    simp only [getAtomLabel, hH, hcv, elementSymbol, VALENCE]
    rw [if_neg (show ¬ (Element.H = Element.C) by decide)]
    norm_num

/-- Claim C6: when a draw drag ends on an atom distinct from the anchor and
a bond between the two atoms already exists (in either orientation), no new
bond is added — the existing bond's order is cycled 1→2→3→1, so successive
drags between the same two atoms take an order-1 bond to 2, 3 and back
to 1. -/
theorem claim_C6_theorem (atoms : List AtomData) (bonds : List BondData)
    (dragStartId tid : String) (pointerPos : V2) (activeEl : Element)
    (fA fB : String) :
    (tid ≠ dragStartId →
      ∀ i, bonds.findIdx? (fun b =>
          (b.source == dragStartId && b.target == tid) ||
          (b.source == tid && b.target == dragStartId)) = some i →
        dragEndCommit atoms bonds dragStartId pointerPos (some tid)
            activeEl fA fB =
          (atoms, bonds.set i
            { bonds.getD i (⟨"", "", "", 1⟩ : BondData) with
              type :=
                nextBondType
                  (bonds.getD i (⟨"", "", "", 1⟩ : BondData)).type }) ∧
        (bonds.set i
          { bonds.getD i (⟨"", "", "", 1⟩ : BondData) with
            type :=
              nextBondType
                (bonds.getD i (⟨"", "", "", 1⟩ : BondData)).type }).length =
          bonds.length) ∧
    nextBondType 1 = 2 ∧ nextBondType 2 = 3 ∧ nextBondType 3 = 1 ∧
    (∀ (A B bid : String) (k : ℕ), B ≠ A →
      (dragEndCommit atoms [⟨bid, A, B, k⟩] A pointerPos (some B)
          activeEl fA fB).2 = [⟨bid, A, B, nextBondType k⟩]) := by
  refine ⟨fun hne i hidx => ?_, rfl, rfl, rfl, fun A B bid k hBA => ?_⟩
  · refine ⟨?_, List.length_set ..⟩
    simp only [dragEndCommit, hidx]
    rw [if_pos hne]
  · simp only [dragEndCommit]
    rw [if_pos hBA]
    simp [List.findIdx?]

/-- Mapping an id-preserving function over the atom list preserves the
presence of any given id. -/
theorem ids_preserved_map (atoms : List AtomData) (f : AtomData → AtomData)
    (hf : ∀ a, (f a).id = a.id) (sid : String) :
    (∃ a ∈ atoms, a.id = sid) → ∃ a ∈ atoms.map f, a.id = sid := by
  rintro ⟨a, ha, hid⟩
  exact ⟨f a, List.mem_map_of_mem f ha, (hf a).trans hid⟩

/-- Claim C7: every snapshot the interaction handlers commit is closed —
each bond's endpoint ids refer to atoms of the same snapshot: erasing an
atom removes its incident bonds in the same commit, and a bond is only
created between atoms present in the committed atom list. -/
theorem claim_C7_theorem (atoms : List AtomData) (bonds : List BondData)
    (hcl : Closed atoms bonds) :
    (∀ aid, Closed (eraseAtomCommit atoms bonds aid).1
      (eraseAtomCommit atoms bonds aid).2) ∧
    (∀ bid, Closed atoms (eraseBondCommit atoms bonds bid).2) ∧
    (∀ bid, Closed atoms (cycleBondClickCommit atoms bonds bid).2) ∧
    (∀ aid el, Closed (relabelCommit atoms bonds aid el).1 bonds) ∧
    (∀ aid p, Closed (moveAtomUpdate atoms aid p) bonds) ∧
    (∀ dragStartId pointerPos snapTargetId activeEl fA fB,
      (∃ a ∈ atoms, a.id = dragStartId) →
      (∀ tid, snapTargetId = some tid → ∃ a ∈ atoms, a.id = tid) →
      Closed
        (dragEndCommit atoms bonds dragStartId pointerPos snapTargetId
          activeEl fA fB).1
        (dragEndCommit atoms bonds dragStartId pointerPos snapTargetId
          activeEl fA fB).2) ∧
    Closed ([] : List AtomData) [] := by
  have idKept : ∀ (as : List AtomData) (sid : String),
      (∃ a ∈ as, a.id = sid) → ∀ as2, as ⊆ as2 → ∃ a ∈ as2, a.id = sid := by
    rintro as sid ⟨a, ha, hid⟩ as2 hsub
    exact ⟨a, hsub ha, hid⟩
  refine ⟨fun aid => ?_, fun bid => ?_, fun bid => ?_, fun aid el => ?_,
    fun aid p => ?_, fun dsid pp stid el fA fB hanchor htarget => ?_, ?_⟩
  · intro b hb
    rw [eraseAtomCommit] at hb ⊢
    simp only [List.mem_filter, Bool.and_eq_true, bne_iff_ne, ne_eq] at hb
    obtain ⟨hbmem, hbs, hbt⟩ := hb
    obtain ⟨⟨a1, ha1, hid1⟩, ⟨a2, ha2, hid2⟩⟩ := hcl b hbmem
    exact ⟨⟨a1, List.mem_filter.mpr ⟨ha1, by simp [hid1, hbs]⟩, hid1⟩,
           ⟨a2, List.mem_filter.mpr ⟨ha2, by simp [hid2, hbt]⟩, hid2⟩⟩
  · intro b hb
    rw [eraseBondCommit] at hb
    exact hcl b (List.mem_filter.mp hb).1
  · intro b hb
    rw [cycleBondClickCommit] at hb
    simp only [List.mem_map] at hb
    obtain ⟨b0, hb0, hbe⟩ := hb
    obtain ⟨h1, h2⟩ := hcl b0 hb0
    subst hbe
    by_cases hc : (b0.id == bid) = true <;> simp [hc, h1, h2]
  · intro b hb
    obtain ⟨h1, h2⟩ := hcl b hb
    rw [relabelCommit]
    have hf : ∀ a : AtomData,
        ((fun a => if a.id == aid then { a with element := el } else a) a).id
          = a.id := by
      intro a
      by_cases hc : (a.id == aid) = true <;> simp [hc]
    exact ⟨ids_preserved_map atoms _ hf _ h1, ids_preserved_map atoms _ hf _ h2⟩
  · intro b hb
    obtain ⟨h1, h2⟩ := hcl b hb
    rw [moveAtomUpdate]
    have hf : ∀ a : AtomData,
        ((fun a => if a.id == aid then { a with x := p.x, y := p.y } else a)
          a).id = a.id := by
      intro a
      by_cases hc : (a.id == aid) = true <;> simp [hc]
    exact ⟨ids_preserved_map atoms _ hf _ h1, ids_preserved_map atoms _ hf _ h2⟩
  · -- the draw drag-end commit
    simp only [dragEndCommit]
    rcases stid with _ | tid
    · -- no snap target: a fresh atom is appended and becomes the endpoint
      simp only
      set newAtom : AtomData := ⟨fA, pp.x, pp.y, el⟩ with hnew
      have hsub : atoms ⊆ atoms ++ [newAtom] := List.subset_append_left _ _
      by_cases hfa : fA ≠ dsid
      · rw [if_pos hfa]
        rcases hidx : bonds.findIdx? (fun b =>
            (b.source == dsid && b.target == fA) ||
            (b.source == fA && b.target == dsid)) with _ | i
        · rw [hidx]
          intro b hb
          rcases List.mem_append.mp hb with hb0 | hb1
          · obtain ⟨⟨a1, ha1, hid1⟩, ⟨a2, ha2, hid2⟩⟩ := hcl b hb0
            exact ⟨⟨a1, hsub ha1, hid1⟩, ⟨a2, hsub ha2, hid2⟩⟩
          · have hbeq : b = ⟨fB, dsid, fA, 1⟩ := by simpa using hb1
            subst hbeq
            refine ⟨idKept atoms dsid hanchor _ hsub, ⟨newAtom, ?_, rfl⟩⟩
            simp
        · rw [hidx]
          have hlt : i < bonds.length := by
            have := List.findIdx?_eq_some_iff_findIdx_eq.mp hidx
            exact this.1
          intro b hb
          rcases List.mem_or_eq_of_mem_set hb with hb0 | hbeq
          · obtain ⟨⟨a1, ha1, hid1⟩, ⟨a2, ha2, hid2⟩⟩ := hcl b hb0
            exact ⟨⟨a1, hsub ha1, hid1⟩, ⟨a2, hsub ha2, hid2⟩⟩
          · subst hbeq
            have hmem : bonds.getD i (⟨"", "", "", 1⟩ : BondData) ∈ bonds := by
              rw [List.getD_eq_getElem _ _ hlt]
              exact List.getElem_mem hlt
            obtain ⟨⟨a1, ha1, hid1⟩, ⟨a2, ha2, hid2⟩⟩ := hcl _ hmem
            exact ⟨⟨a1, hsub ha1, hid1⟩, ⟨a2, hsub ha2, hid2⟩⟩
      · rw [if_neg hfa]
        intro b hb
        obtain ⟨⟨a1, ha1, hid1⟩, ⟨a2, ha2, hid2⟩⟩ := hcl b hb
        exact ⟨⟨a1, hsub ha1, hid1⟩, ⟨a2, hsub ha2, hid2⟩⟩
    · -- snap target: both endpoints are existing atoms
      simp only
      by_cases htd : tid ≠ dsid
      · rw [if_pos htd]
        rcases hidx : bonds.findIdx? (fun b =>
            (b.source == dsid && b.target == tid) ||
            (b.source == tid && b.target == dsid)) with _ | i
        · rw [hidx]
          intro b hb
          rcases List.mem_append.mp hb with hb0 | hb1
          · exact hcl b hb0
          · have hbeq : b = ⟨fB, dsid, tid, 1⟩ := by simpa using hb1
            subst hbeq
            exact ⟨hanchor, htarget tid rfl⟩
        · rw [hidx]
          have hlt : i < bonds.length := by
            have := List.findIdx?_eq_some_iff_findIdx_eq.mp hidx
            exact this.1
          intro b hb
          rcases List.mem_or_eq_of_mem_set hb with hb0 | hbeq
          · exact hcl b hb0
          · subst hbeq
            have hmem : bonds.getD i (⟨"", "", "", 1⟩ : BondData) ∈ bonds := by
              rw [List.getD_eq_getElem _ _ hlt]
              exact List.getElem_mem hlt
            obtain ⟨h1, h2⟩ := hcl _ hmem
            exact ⟨h1, h2⟩
      · rw [if_neg htd]
        exact fun b hb => hcl b hb
  · intro b hb
    simp at hb

/-- Claim C7 witness: the erase-atom commit on a concrete closed two-atom,
one-bond graph yields a closed snapshot. -/
theorem claim_C7_witness :
    Closed (eraseAtomCommit wAtoms wBonds "a").1
      (eraseAtomCommit wAtoms wBonds "a").2 := by
  have hcl : Closed wAtoms wBonds := by
    intro b hb
    have hb1 : b = (⟨"ab", "a", "b", 1⟩ : BondData) := by simpa [wBonds] using hb
    subst hb1
    exact ⟨⟨⟨"a", 0, 0, Element.C⟩, by simp [wAtoms], rfl⟩,
           ⟨⟨"b", 60, 0, Element.C⟩, by simp [wAtoms], rfl⟩⟩
  exact (claim_C7_theorem wAtoms wBonds hcl).1 "a"

/-- Claim C8: the wheel handler sets the new scale to
clamp(k · (1 − d · 0.001), 0.1, 5) and the new offset to p − w·k' with w the
world point under the pointer at the old view; consequently the world point
under the pointer is unchanged by the zoom. -/
theorem claim_C8_theorem (view : ViewState) (d mx my : ℝ) :
    (handleWheel view d mx my).k =
      max 0.1 (min 5 (view.k * (1 - d * 0.001))) ∧
    (handleWheel view d mx my).x =
      mx - (mx - view.x) / view.k * (handleWheel view d mx my).k ∧
    (handleWheel view d mx my).y =
      my - (my - view.y) / view.k * (handleWheel view d mx my).k ∧
    screenToWorld (handleWheel view d mx my) mx my =
      screenToWorld view mx my := by
  have hK : (0 : ℝ) < max 0.1 (min 5 (view.k * (1 - d * 0.001))) :=
    lt_of_lt_of_le (by norm_num) (le_max_left _ _)
  refine ⟨rfl, rfl, rfl, ?_⟩
  simp only [screenToWorld, handleWheel, V2.mk.injEq]
  constructor
  · rw [sub_sub_cancel, mul_div_assoc, div_self hK.ne', mul_one]
  · rw [sub_sub_cancel, mul_div_assoc, div_self hK.ne', mul_one]

/-- Claim C9: a host value whose atoms or bonds field is missing or not an
array leaves the editor state unchanged; when both are arrays and the
serialised content differs from the current state, every provided field is
adopted, missing fields keeping their current values. -/
theorem claim_C9_theorem (st : FullState) (value : ValueIn) :
    ((value.atoms = JsArrayField.missing ∨ value.atoms = JsArrayField.notArray ∨
      value.bonds = JsArrayField.missing ∨ value.bonds = JsArrayField.notArray) →
      propSync st value = st) ∧
    (∀ newAtoms newBonds,
      value.atoms = JsArrayField.arr newAtoms →
      value.bonds = JsArrayField.arr newBonds →
      (⟨st.atoms, st.bonds, st.historyIndex, st.tool, st.activeElement,
        none⟩ : SyncRepr) ≠
        ⟨newAtoms, newBonds, value.historyIndex.getD st.historyIndex,
         value.tool.getD st.tool, value.activeElement.getD st.activeElement,
         some (value.view.getD st.view)⟩ →
      propSync st value =
        { atoms := newAtoms, bonds := newBonds,
          history := value.history.getD st.history,
          historyIndex := value.historyIndex.getD st.historyIndex,
          tool := value.tool.getD st.tool,
          activeElement := value.activeElement.getD st.activeElement,
          view := value.view.getD st.view }) := by
  constructor
  · intro h
    rcases ha : value.atoms with _ | _ | as <;>
        rcases hb : value.bonds with _ | _ | bs <;>
        simp [propSync, ha, hb]
    rcases h with h | h | h | h <;> simp_all
  · intro nA nB hA hB hne
    simp only [propSync, hA, hB]
    rw [if_neg hne]

/-- Claim C5: during an active draw drag, the candidate endpoint is the
anchor plus a vector of length exactly 60 in the direction from anchor to
pointer rounded to the nearest multiple of 30 degrees; an atom other than
the anchor within 20 units of the raw pointer or of the snapped candidate
becomes the snap target and the tracked position locks to it, else the
tracked position is the snapped candidate with no snap target. -/
theorem claim_C5_theorem (atoms : List AtomData) (dragStart : DragStart)
    (coords : V2) :
    (vec.len (vec.sub (snapToAngle dragStart.x dragStart.y coords.x coords.y)
        ⟨dragStart.x, dragStart.y⟩) = 60) ∧
    (∃ m : ℤ,
      snapToAngle dragStart.x dragStart.y coords.x coords.y =
        ⟨dragStart.x + Real.cos (m * (Real.pi / 6)) * 60,
         dragStart.y + Real.sin (m * (Real.pi / 6)) * 60⟩ ∧
      |atan2 (coords.y - dragStart.y) (coords.x - dragStart.x) -
        m * (Real.pi / 6)| ≤ Real.pi / 12) ∧
    (∀ a, atoms.find? (snapCandidate dragStart coords
        (snapToAngle dragStart.x dragStart.y coords.x coords.y)) = some a →
      drawMove atoms dragStart coords = (⟨a.x, a.y⟩, some a.id) ∧
      a ∈ atoms ∧ a.id ≠ dragStart.id ∧
      (distance ⟨a.x, a.y⟩ coords < 20 ∨
       distance ⟨a.x, a.y⟩
         (snapToAngle dragStart.x dragStart.y coords.x coords.y) < 20)) ∧
    (atoms.find? (snapCandidate dragStart coords
        (snapToAngle dragStart.x dragStart.y coords.x coords.y)) = none →
      drawMove atoms dragStart coords =
        (snapToAngle dragStart.x dragStart.y coords.x coords.y, none) ∧
      ∀ a ∈ atoms, a.id ≠ dragStart.id →
        ¬(distance ⟨a.x, a.y⟩ coords < 20 ∨
          distance ⟨a.x, a.y⟩
            (snapToAngle dragStart.x dragStart.y coords.x coords.y) < 20)) := by
  set θ := atan2 (coords.y - dragStart.y) (coords.x - dragStart.x) with hθ
  refine ⟨?_, ?_, ?_, ?_⟩
  · simp only [snapToAngle, vec.sub, vec.len, ← hθ]
    have key : ∀ φ : ℝ,
        (dragStart.x + Real.cos φ * (40 * 1.5) - dragStart.x) *
          (dragStart.x + Real.cos φ * (40 * 1.5) - dragStart.x) +
        (dragStart.y + Real.sin φ * (40 * 1.5) - dragStart.y) *
          (dragStart.y + Real.sin φ * (40 * 1.5) - dragStart.y) = 3600 := by
      intro φ
      have h := Real.sin_sq_add_cos_sq φ
      nlinarith [h]
    rw [key]
    rw [show (3600 : ℝ) = 60 ^ 2 by norm_num, Real.sqrt_sq (by norm_num)]
  · refine ⟨round (θ / (Real.pi / 6)), ?_, ?_⟩
    · simp only [snapToAngle, ← hθ]
      norm_num
    · have hs : (0 : ℝ) < Real.pi / 6 := by positivity
      have habs := abs_sub_round (θ / (Real.pi / 6))
      have heq : θ - (round (θ / (Real.pi / 6)) : ℤ) * (Real.pi / 6) =
          (θ / (Real.pi / 6) - (round (θ / (Real.pi / 6)) : ℤ)) *
            (Real.pi / 6) := by
        field_simp
        ring
      rw [heq, abs_mul, abs_of_pos hs]
      nlinarith [habs, hs]
  · intro a ha
    have hp := List.find?_some ha
    simp only [snapCandidate, Bool.and_eq_true, bne_iff_ne, ne_eq,
      Bool.or_eq_true, decide_eq_true_eq] at hp
    refine ⟨?_, List.mem_of_find?_eq_some ha, hp.1, hp.2⟩
    simp only [drawMove]
    rw [ha]
  · intro hn
    constructor
    · simp only [drawMove]
      rw [hn]
    · intro a ha hne hdist
      have hfa := List.find?_eq_none.mp hn a ha
      simp only [snapCandidate, Bool.and_eq_true, bne_iff_ne, ne_eq,
        Bool.or_eq_true, decide_eq_true_eq, not_and, not_or] at hfa
      exact absurd hdist (by simpa using hfa hne)

/-- A strict-comparison conditional is the minimum. -/
theorem ite_lt_eq_min (a b : ℝ) : (if a < b then a else b) = min a b := by
  rcases lt_or_le a b with h | h
  · rw [if_pos h, min_eq_left h.le]
  · rw [if_neg (not_lt.mpr h), min_eq_right h]

/-- Pulling one element out of a fold of minima. -/
theorem foldr_min_pull (c i : ℝ) (l : List ℝ) :
    l.foldr min (min c i) = min c (l.foldr min i) := by
  induction l with
  | nil => rfl
  | cons a l ih =>
      simp only [List.foldr_cons, ih]
      rw [min_left_comm]

/-- `getMinAngle`'s fold, characterised: per-side minima as folds over the
side-filtered angle lists, and per-side existence as `any`. -/
theorem minAngleFold_eq (axis myAxis : V2) (nbs : List V2)
    (acc : MinAngleResult) :
    nbs.foldl (minAngleStep axis myAxis) acc =
      ⟨((nbs.filter fun nb => decide (0 < vec.cross axis nb)).map
          fun nb => vec.angle myAxis nb).foldr min acc.minRight,
       ((nbs.filter fun nb => !decide (0 < vec.cross axis nb)).map
          fun nb => vec.angle myAxis nb).foldr min acc.minLeft,
       acc.existsRight || nbs.any (fun nb => decide (0 < vec.cross axis nb)),
       acc.existsLeft || nbs.any
         (fun nb => !decide (0 < vec.cross axis nb))⟩ := by
  induction nbs generalizing acc with
  | nil => simp
  | cons nb nbs ih =>
      rw [List.foldl_cons, ih]
      by_cases hc : 0 < vec.cross axis nb
      · have hd : decide (0 < vec.cross axis nb) = true := decide_eq_true hc
        have hstep : minAngleStep axis myAxis acc nb =
            ⟨if vec.angle myAxis nb < acc.minRight then vec.angle myAxis nb
              else acc.minRight, acc.minLeft, true, acc.existsLeft⟩ := by
          simp [minAngleStep, hc]
        rw [hstep]
        simp [hd, ite_lt_eq_min, foldr_min_pull]
      · have hd : decide (0 < vec.cross axis nb) = false := decide_eq_false hc
        have hstep : minAngleStep axis myAxis acc nb =
            ⟨acc.minRight,
             if vec.angle myAxis nb < acc.minLeft then vec.angle myAxis nb
               else acc.minLeft, acc.existsRight, true⟩ := by
          simp [minAngleStep, hc]
        rw [hstep]
        simp [hd, ite_lt_eq_min, foldr_min_pull]

theorem angle_le_pi (ref nb : V2) : vec.angle ref nb ≤ Real.pi :=
  Real.arccos_le_pi _

theorem pi_lt_999 : Real.pi < 999 :=
  Real.pi_lt_d2.trans (by norm_num)

theorem filter_beq_true {α : Type} (p : α → Bool) (l : List α) :
    l.filter (fun a => p a == true) = l.filter p := by
  refine List.filter_congr ?_
  intro a _
  cases p a <;> rfl

theorem filter_beq_false {α : Type} (p : α → Bool) (l : List α) :
    l.filter (fun a => p a == false) = l.filter (fun a => !p a) := by
  refine List.filter_congr ?_
  intro a _
  cases p a <;> rfl

theorem any_beq_true {α : Type} (p : α → Bool) (l : List α) :
    (l.any fun a => p a == true) = l.any p := by
  induction l with
  | nil => rfl
  | cons a l ih => simp only [List.any_cons, ih]; cases p a <;> rfl

theorem any_beq_false {α : Type} (p : α → Bool) (l : List α) :
    (l.any fun a => p a == false) = l.any fun a => !p a := by
  induction l with
  | nil => rfl
  | cons a l ih => simp only [List.any_cons, ih]; cases p a <;> rfl

/-- A fold of minima does not depend on an initial value that bounds every
element from above. -/
theorem foldr_min_init_irrel (l : List ℝ) (c d : ℝ) (hne : l ≠ [])
    (hc : ∀ a ∈ l, a ≤ c) (hd : ∀ a ∈ l, a ≤ d) :
    l.foldr min c = l.foldr min d := by
  induction l with
  | nil => exact absurd rfl hne
  | cons a l ih =>
      cases l with
      | nil =>
          simp only [List.foldr]
          rw [min_eq_left (hc a (by simp)), min_eq_left (hd a (by simp))]
      | cons b m =>
          simp only [List.foldr_cons] at ih ⊢
          rw [ih (by simp) (fun x hx => hc x (by simp [hx]))
            (fun x hx => hd x (by simp [hx]))]

/-- The source's per-side existence flag agrees with the spec's
side-classification. -/
theorem fold_existsRight (axis myAxis : V2) (nbs : List V2) :
    (minAngleFold axis myAxis nbs).existsRight = sideHasNeighbor axis nbs true := by
  rw [minAngleFold, minAngleFold_eq, sideHasNeighbor]
  simp only [Bool.false_or, any_beq_true]

theorem fold_existsLeft (axis myAxis : V2) (nbs : List V2) :
    (minAngleFold axis myAxis nbs).existsLeft = sideHasNeighbor axis nbs false := by
  rw [minAngleFold, minAngleFold_eq, sideHasNeighbor]
  simp only [Bool.false_or, any_beq_false]

/-- When a side is nonempty, the source's per-side minimum (999-seeded)
equals the spec's π-seeded side minimum; when empty, the spec's value is π
and the source substitutes π explicitly. -/
theorem fold_side_right (axis myAxis : V2) (nbs : List V2) :
    (if (minAngleFold axis myAxis nbs).existsRight then
      (minAngleFold axis myAxis nbs).minRight else Real.pi) =
    sideMinAngle axis myAxis nbs true := by
  rw [sideMinAngle, filter_beq_true, fold_existsRight, sideHasNeighbor,
    any_beq_true]
  rw [minAngleFold, minAngleFold_eq]
  by_cases h : nbs.any (fun nb => decide (0 < vec.cross axis nb)) = true
  · rw [if_pos h]
    simp only
    have hne : (nbs.filter fun nb => decide (0 < vec.cross axis nb)) ≠ [] := by
      simp only [ne_eq, List.filter_eq_nil_iff]
      push_neg
      obtain ⟨x, hx, hpx⟩ := List.any_eq_true.mp h
      exact ⟨x, hx, by simpa using hpx⟩
    have hne2 : ((nbs.filter fun nb => decide (0 < vec.cross axis nb)).map
        fun nb => vec.angle myAxis nb) ≠ [] := by
      simpa using hne
    refine foldr_min_init_irrel _ 999 Real.pi hne2 ?_ ?_
    · intro a ha
      obtain ⟨nb, _, hnb⟩ := List.mem_map.mp ha
      exact hnb ▸ (angle_le_pi myAxis nb).trans pi_lt_999.le
    · intro a ha
      obtain ⟨nb, _, hnb⟩ := List.mem_map.mp ha
      exact hnb ▸ angle_le_pi myAxis nb
  · rw [if_neg h]
    have hnil : (nbs.filter fun nb => decide (0 < vec.cross axis nb)) = [] := by
      rw [List.filter_eq_nil_iff]
      intro x hx
      by_contra hpx
      exact h (List.any_eq_true.mpr ⟨x, hx, by simpa using hpx⟩)
    rw [hnil]
    rfl

theorem fold_side_left (axis myAxis : V2) (nbs : List V2) :
    (if (minAngleFold axis myAxis nbs).existsLeft then
      (minAngleFold axis myAxis nbs).minLeft else Real.pi) =
    sideMinAngle axis myAxis nbs false := by
  rw [sideMinAngle, filter_beq_false, fold_existsLeft, sideHasNeighbor,
    any_beq_false]
  rw [minAngleFold, minAngleFold_eq]
  by_cases h : nbs.any (fun nb => !decide (0 < vec.cross axis nb)) = true
  · rw [if_pos h]
    simp only
    have hne : (nbs.filter fun nb => !decide (0 < vec.cross axis nb)) ≠ [] := by
      simp only [ne_eq, List.filter_eq_nil_iff]
      push_neg
      obtain ⟨x, hx, hpx⟩ := List.any_eq_true.mp h
      exact ⟨x, hx, by simpa using hpx⟩
    have hne2 : ((nbs.filter fun nb => !decide (0 < vec.cross axis nb)).map
        fun nb => vec.angle myAxis nb) ≠ [] := by
      simpa using hne
    refine foldr_min_init_irrel _ 999 Real.pi hne2 ?_ ?_
    · intro a ha
      obtain ⟨nb, _, hnb⟩ := List.mem_map.mp ha
      exact hnb ▸ (angle_le_pi myAxis nb).trans pi_lt_999.le
    · intro a ha
      obtain ⟨nb, _, hnb⟩ := List.mem_map.mp ha
      exact hnb ▸ angle_le_pi myAxis nb
  · rw [if_neg h]
    have hnil : (nbs.filter fun nb => !decide (0 < vec.cross axis nb)) = [] := by
      rw [List.filter_eq_nil_iff]
      intro x hx
      by_contra hpx
      exact h (List.any_eq_true.mpr ⟨x, hx, by simpa using hpx⟩)
    rw [hnil]
    rfl

/-- The minimum over both filtered sides is the minimum over all
neighbors. -/
theorem min_foldr_filter {α : Type} (p : α → Bool) (f : α → ℝ) (c : ℝ)
    (l : List α) :
    min (((l.filter p).map f).foldr min c)
        (((l.filter fun x => !p x).map f).foldr min c) =
      (l.map f).foldr min c := by
  induction l with
  | nil => exact min_self c
  | cons a l ih =>
      by_cases hp : p a = true
      · rw [List.filter_cons_of_pos hp, List.filter_cons_of_neg (by simp [hp]),
          List.map_cons, List.foldr_cons, min_assoc, ih, List.map_cons,
          List.foldr_cons]
      · rw [List.filter_cons_of_neg hp, List.filter_cons_of_pos (by simp [hp]),
          List.map_cons, List.foldr_cons, min_left_comm, ih, List.map_cons,
          List.foldr_cons]

/-- The source's trim angle, min over both sides, is the minimal angle over
all neighbors at the endpoint. -/
theorem fold_min_both (axis myAxis : V2) (nbs : List V2) :
    min (minAngleFold axis myAxis nbs).minRight
        (minAngleFold axis myAxis nbs).minLeft =
      allMinAngle myAxis nbs := by
  rw [minAngleFold, minAngleFold_eq, allMinAngle]
  exact min_foldr_filter _ _ _ _

/-- The source's shorten amount is the amended trim formula at the minimal
all-neighbor angle. -/
theorem shorten_eq_amended (len : ℝ) (axis myAxis : V2) (nbs : List V2) :
    shortenAmount 6 len (minAngleFold axis myAxis nbs) =
      amendedTrim 6 len (allMinAngle myAxis nbs) := by
  rw [shortenAmount, amendedTrim, ← fold_min_both axis myAxis nbs]
  have h : Real.pi / 2 -
      min (minAngleFold axis myAxis nbs).minRight
        (minAngleFold axis myAxis nbs).minLeft / 2 =
      (Real.pi - min (minAngleFold axis myAxis nbs).minRight
        (minAngleFold axis myAxis nbs).minLeft) / 2 := by ring
  rw [h]

theorem getMinAngle_s (atoms : List AtomData) (bonds : List BondData)
    (b : BondData) (s t : AtomData) (axis : V2) :
    getMinAngle atoms bonds s.id s t b axis =
      minAngleFold axis axis (neighborVecs atoms bonds b s.id ⟨s.x, s.y⟩) := by
  rw [getMinAngle]
  simp

theorem getMinAngle_t (atoms : List AtomData) (bonds : List BondData)
    (b : BondData) (s t : AtomData) (axis : V2)
    (hne : (t.id == s.id) = false) :
    getMinAngle atoms bonds t.id s t b axis =
      minAngleFold axis (vec.scale axis (-1))
        (neighborVecs atoms bonds b t.id ⟨t.x, t.y⟩) := by
  rw [getMinAngle]
  simp [hne]

/-- The source's offset segment, at the fold results for the two endpoints,
is exactly the amended-specification segment. -/
theorem offsetSeg_eq_amendedSeg (s t : AtomData) (sNbs tNbs : List V2)
    (dr : Bool) :
    offsetSeg s t (vec.norm (vec.sub ⟨t.x, t.y⟩ ⟨s.x, s.y⟩))
        ⟨-(vec.norm (vec.sub ⟨t.x, t.y⟩ ⟨s.x, s.y⟩)).y,
         (vec.norm (vec.sub ⟨t.x, t.y⟩ ⟨s.x, s.y⟩)).x⟩
        (vec.len (vec.sub ⟨t.x, t.y⟩ ⟨s.x, s.y⟩)) 6
        (minAngleFold (vec.sub ⟨t.x, t.y⟩ ⟨s.x, s.y⟩)
          (vec.sub ⟨t.x, t.y⟩ ⟨s.x, s.y⟩) sNbs)
        (minAngleFold (vec.sub ⟨t.x, t.y⟩ ⟨s.x, s.y⟩)
          (vec.scale (vec.sub ⟨t.x, t.y⟩ ⟨s.x, s.y⟩) (-1)) tNbs) dr =
      amendedSeg s t sNbs tNbs dr := by
  set v := vec.sub ⟨t.x, t.y⟩ ⟨s.x, s.y⟩ with hv
  have hS : (if dr = true then (minAngleFold v v sNbs).existsRight
      else (minAngleFold v v sNbs).existsLeft) = sideHasNeighbor v sNbs dr := by
    cases dr
    · exact fold_existsLeft v v sNbs
    · exact fold_existsRight v v sNbs
  have hT : (if dr = true then
        (minAngleFold v (vec.scale v (-1)) tNbs).existsRight
      else (minAngleFold v (vec.scale v (-1)) tNbs).existsLeft) =
      sideHasNeighbor v tNbs dr := by
    cases dr
    · exact fold_existsLeft v (vec.scale v (-1)) tNbs
    · exact fold_existsRight v (vec.scale v (-1)) tNbs
  simp only [offsetSeg, amendedSeg]
  simp only [← hv]
  rw [hS, hT, shorten_eq_amended (vec.len v) v v sNbs,
    shorten_eq_amended (vec.len v) v (vec.scale v (-1)) tNbs]
  by_cases hs2 : sideHasNeighbor v sNbs dr = true <;>
    by_cases ht2 : sideHasNeighbor v tNbs dr = true
  · rw [if_pos hs2, if_pos ht2, if_pos hs2, if_pos ht2]
    simp only [vec.add, vec.sub, vec.scale]
  · rw [if_pos hs2, if_neg ht2, if_pos hs2, if_neg ht2]
    all_goals simp only [vec.add, vec.sub, vec.scale]
    all_goals (congr 1 <;> ring)
  · rw [if_neg hs2, if_pos ht2, if_neg hs2, if_pos ht2]
    all_goals simp only [vec.add, vec.sub, vec.scale]
    all_goals (congr 1 <;> ring)
  · rw [if_neg hs2, if_neg ht2, if_neg hs2, if_neg ht2]
    all_goals simp only [vec.add, vec.sub, vec.scale]
    all_goals (congr 1 <;> ring)

/-- The advanced double-bond branch of `getBondCoords`. -/
theorem getBondCoords_double (atoms : List AtomData) (bonds : List BondData)
    (b : BondData) (s t : AtomData)
    (hs : atoms.find? (fun a => a.id == b.source) = some s)
    (ht : atoms.find? (fun a => a.id == b.target) = some t)
    (h2 : b.type = 2)
    (hC : s.element = Element.C ∨ t.element = Element.C) :
    getBondCoords atoms bonds b =
      some [⟨s.x, s.y, t.x, t.y⟩, doubleBondSeg atoms bonds b s t] := by
  have hnotC : ¬(b.type = 2 ∧ s.element ≠ Element.C ∧ t.element ≠ Element.C) := by
    rcases hC with h | h <;> simp [h]
  simp only [getBondCoords, hs, ht, doubleBondSeg]
  rw [if_neg (by omega : ¬ b.type = 1),
    if_neg (by rw [h2]; rintro ⟨h, -⟩; omega),
    if_neg (by omega : ¬ b.type = 3), if_neg hnotC, if_pos h2]

/-- The advanced triple-bond branch of `getBondCoords`. -/
theorem getBondCoords_triple (atoms : List AtomData) (bonds : List BondData)
    (b : BondData) (s t : AtomData)
    (hs : atoms.find? (fun a => a.id == b.source) = some s)
    (ht : atoms.find? (fun a => a.id == b.target) = some t)
    (h3 : b.type = 3)
    (hC : s.element = Element.C ∨ t.element = Element.C) :
    getBondCoords atoms bonds b =
      some (⟨s.x, s.y, t.x, t.y⟩ ::
        [true, false].map fun dr =>
          offsetSeg s t (vec.norm (vec.sub ⟨t.x, t.y⟩ ⟨s.x, s.y⟩))
            ⟨-(vec.norm (vec.sub ⟨t.x, t.y⟩ ⟨s.x, s.y⟩)).y,
             (vec.norm (vec.sub ⟨t.x, t.y⟩ ⟨s.x, s.y⟩)).x⟩
            (vec.len (vec.sub ⟨t.x, t.y⟩ ⟨s.x, s.y⟩)) 6
            (getMinAngle atoms bonds s.id s t b (vec.sub ⟨t.x, t.y⟩ ⟨s.x, s.y⟩))
            (getMinAngle atoms bonds t.id s t b (vec.sub ⟨t.x, t.y⟩ ⟨s.x, s.y⟩))
            dr) := by
  have hnotC : ¬(b.type = 3 ∧ s.element ≠ Element.C ∧ t.element ≠ Element.C) := by
    rcases hC with h | h <;> simp [h]
  simp only [getBondCoords, hs, ht]
  rw [if_neg (by omega : ¬ b.type = 1), if_neg hnotC, if_pos h3]

/-- Claim C1 (amended): for every order-2 or order-3 bond with at least one
carbon endpoint, the renderer emits the center segment followed by offset
segments, and each offset segment is trimmed at an endpoint exactly when
that endpoint has a neighboring bond on the drawn side of the axis, by
`min(half the bond length, offset · tan((π − θ)/2))` where θ is the minimal
angle over all of that endpoint's neighboring bonds against the bond axis
oriented away from the endpoint. -/
theorem claim_C1_thm (atoms : List AtomData) (bonds : List BondData)
    (b : BondData) (s t : AtomData)
    (hs : atoms.find? (fun a => a.id == b.source) = some s)
    (ht : atoms.find? (fun a => a.id == b.target) = some t)
    (hord : b.type = 2 ∨ b.type = 3)
    (hC : s.element = Element.C ∨ t.element = Element.C) :
    ∃ offs : List Seg,
      getBondCoords atoms bonds b = some (⟨s.x, s.y, t.x, t.y⟩ :: offs) ∧
      offs ≠ [] ∧
      ∀ seg ∈ offs, ∃ dr : Bool,
        seg = amendedSeg s t (neighborVecs atoms bonds b s.id ⟨s.x, s.y⟩)
          (neighborVecs atoms bonds b t.id ⟨t.x, t.y⟩) dr := by
  have hTfold : getMinAngle atoms bonds t.id s t b
        (vec.sub ⟨t.x, t.y⟩ ⟨s.x, s.y⟩) =
      minAngleFold (vec.sub ⟨t.x, t.y⟩ ⟨s.x, s.y⟩)
        (vec.scale (vec.sub ⟨t.x, t.y⟩ ⟨s.x, s.y⟩) (-1))
        (neighborVecs atoms bonds b t.id ⟨t.x, t.y⟩) := by
    by_cases hid : (t.id == s.id) = true
    · have hst : s = t := by
        have h1 := List.find?_some hs
        have h2 := List.find?_some ht
        have e1 : s.id = b.source := by simpa using h1
        have e2 : t.id = b.target := by simpa using h2
        have h3 : t.id = s.id := by simpa using hid
        have h4 : b.source = b.target := by rw [← e1, ← h3, e2]
        rw [h4] at hs
        exact Option.some.inj (hs.symm.trans ht)
      subst hst
      have hv0 : vec.sub (⟨s.x, s.y⟩ : V2) ⟨s.x, s.y⟩ = ⟨0, 0⟩ := by
        simp [vec.sub]
      have hsc : vec.scale (⟨0, 0⟩ : V2) (-1) = ⟨0, 0⟩ := by
        simp [vec.scale]
      rw [getMinAngle_s, hv0, hsc]
    · have hid2 : (t.id == s.id) = false := by
        cases h : (t.id == s.id)
        · rfl
        · exact absurd h hid
      exact getMinAngle_t atoms bonds b s t _ hid2
  have hSfold : getMinAngle atoms bonds s.id s t b
        (vec.sub ⟨t.x, t.y⟩ ⟨s.x, s.y⟩) =
      minAngleFold (vec.sub ⟨t.x, t.y⟩ ⟨s.x, s.y⟩)
        (vec.sub ⟨t.x, t.y⟩ ⟨s.x, s.y⟩)
        (neighborVecs atoms bonds b s.id ⟨s.x, s.y⟩) :=
    getMinAngle_s atoms bonds b s t _
  rcases hord with h2 | h3
  · refine ⟨[doubleBondSeg atoms bonds b s t],
      getBondCoords_double atoms bonds b s t hs ht h2 hC, by simp, ?_⟩
    intro seg hseg
    have hseg2 : seg = doubleBondSeg atoms bonds b s t := by simpa using hseg
    subst hseg2
    have hx : ∃ dr : Bool, doubleBondSeg atoms bonds b s t =
        offsetSeg s t (vec.norm (vec.sub ⟨t.x, t.y⟩ ⟨s.x, s.y⟩))
          ⟨-(vec.norm (vec.sub ⟨t.x, t.y⟩ ⟨s.x, s.y⟩)).y,
           (vec.norm (vec.sub ⟨t.x, t.y⟩ ⟨s.x, s.y⟩)).x⟩
          (vec.len (vec.sub ⟨t.x, t.y⟩ ⟨s.x, s.y⟩)) 6
          (minAngleFold (vec.sub ⟨t.x, t.y⟩ ⟨s.x, s.y⟩)
            (vec.sub ⟨t.x, t.y⟩ ⟨s.x, s.y⟩)
            (neighborVecs atoms bonds b s.id ⟨s.x, s.y⟩))
          (minAngleFold (vec.sub ⟨t.x, t.y⟩ ⟨s.x, s.y⟩)
            (vec.scale (vec.sub ⟨t.x, t.y⟩ ⟨s.x, s.y⟩) (-1))
            (neighborVecs atoms bonds b t.id ⟨t.x, t.y⟩)) dr := by
      simp only [doubleBondSeg]
      rw [hSfold, hTfold]
      exact ⟨_, rfl⟩
    obtain ⟨dr, hdr⟩ := hx
    exact ⟨dr, hdr.trans (offsetSeg_eq_amendedSeg s t _ _ dr)⟩
  · refine ⟨_, getBondCoords_triple atoms bonds b s t hs ht h3 hC,
      by simp, ?_⟩
    intro seg hseg
    simp only [List.map_cons, List.map_nil, List.mem_cons,
      List.not_mem_nil, or_false] at hseg
    rcases hseg with hseg | hseg
    · subst hseg
      refine ⟨true, ?_⟩
      rw [hSfold, hTfold]
      exact offsetSeg_eq_amendedSeg s t _ _ true
    · subst hseg
      refine ⟨false, ?_⟩
      rw [hSfold, hTfold]
      exact offsetSeg_eq_amendedSeg s t _ _ false

/-- The signed side of the emitted offset segment: the cross product of the
axis with the vector from the source atom to the segment's start point is
`+offset·len` on the right and `−offset·len` on the left; the endpoint trim,
being parallel to the axis, does not affect it. -/
theorem cross_offsetSeg_start (s t : AtomData) (v : V2)
    (hlen : vec.len v ≠ 0) (sAng tAng : MinAngleResult) (dr : Bool) :
    vec.cross v
      ⟨(offsetSeg s t (vec.norm v) ⟨-(vec.norm v).y, (vec.norm v).x⟩
          (vec.len v) 6 sAng tAng dr).x1 - s.x,
       (offsetSeg s t (vec.norm v) ⟨-(vec.norm v).y, (vec.norm v).x⟩
          (vec.len v) 6 sAng tAng dr).y1 - s.y⟩ =
      (if dr = true then (6 : ℝ) else -6) * vec.len v := by
  have hn : vec.norm v = ⟨v.x / vec.len v, v.y / vec.len v⟩ := by
    rw [vec.norm, if_neg hlen]
  have hsq : v.x * v.x + v.y * v.y = vec.len v * vec.len v :=
    (Real.mul_self_sqrt
      (add_nonneg (mul_self_nonneg _) (mul_self_nonneg _))).symm
  cases dr
  · by_cases hf : sAng.existsLeft = true
    · simp only [offsetSeg, hn, vec.add, vec.sub, vec.scale, vec.cross,
        Bool.false_eq_true, if_false, hf, if_true]
      field_simp
      linear_combination (-6 : ℝ) * hsq
    · simp only [offsetSeg, hn, vec.add, vec.sub, vec.scale, vec.cross,
        Bool.false_eq_true, if_false, if_neg hf]
      field_simp
      linear_combination (-6 : ℝ) * hsq
  · by_cases hf : sAng.existsRight = true
    · simp only [offsetSeg, hn, vec.add, vec.sub, vec.scale, vec.cross,
        if_true, hf]
      field_simp
      linear_combination (6 : ℝ) * hsq
    · simp only [offsetSeg, hn, vec.add, vec.sub, vec.scale, vec.cross,
        if_true, if_neg hf]
      field_simp
      linear_combination (6 : ℝ) * hsq

/-- Claim C2 (amended): for every order-2 bond with at least one carbon
endpoint and distinct endpoint positions, the renderer emits the center
segment plus exactly one offset segment, placed on the side (by cross-product
sign against the axis) whose amended score is lower, the amended score
measuring each endpoint's minimal same-side neighbor angle against the bond
axis oriented away from that endpoint (an empty side contributing π); the
output is a function of the atom positions and bond set alone. -/
theorem claim_C2_thm (atoms : List AtomData) (bonds : List BondData)
    (b : BondData) (s t : AtomData)
    (hs : atoms.find? (fun a => a.id == b.source) = some s)
    (ht : atoms.find? (fun a => a.id == b.target) = some t)
    (h2 : b.type = 2)
    (hC : s.element = Element.C ∨ t.element = Element.C)
    (hlen : vec.len (vec.sub ⟨t.x, t.y⟩ ⟨s.x, s.y⟩) ≠ 0) :
    ∃ seg : Seg,
      getBondCoords atoms bonds b = some [⟨s.x, s.y, t.x, t.y⟩, seg] ∧
      (amendedSideScore s t (neighborVecs atoms bonds b s.id ⟨s.x, s.y⟩)
          (neighborVecs atoms bonds b t.id ⟨t.x, t.y⟩) true <
        amendedSideScore s t (neighborVecs atoms bonds b s.id ⟨s.x, s.y⟩)
          (neighborVecs atoms bonds b t.id ⟨t.x, t.y⟩) false →
        0 < vec.cross (vec.sub ⟨t.x, t.y⟩ ⟨s.x, s.y⟩)
          ⟨seg.x1 - s.x, seg.y1 - s.y⟩) ∧
      (¬ (amendedSideScore s t (neighborVecs atoms bonds b s.id ⟨s.x, s.y⟩)
          (neighborVecs atoms bonds b t.id ⟨t.x, t.y⟩) true <
        amendedSideScore s t (neighborVecs atoms bonds b s.id ⟨s.x, s.y⟩)
          (neighborVecs atoms bonds b t.id ⟨t.x, t.y⟩) false) →
        vec.cross (vec.sub ⟨t.x, t.y⟩ ⟨s.x, s.y⟩)
          ⟨seg.x1 - s.x, seg.y1 - s.y⟩ < 0) ∧
      (∀ atoms2 bonds2, atoms2 = atoms → bonds2 = bonds →
        getBondCoords atoms2 bonds2 b = getBondCoords atoms bonds b) := by
  have hid2 : (t.id == s.id) = false := by
    cases hq : (t.id == s.id)
    · rfl
    · exfalso
      have h1 := List.find?_some hs
      have h2x := List.find?_some ht
      have e1 : s.id = b.source := by simpa using h1
      have e2 : t.id = b.target := by simpa using h2x
      have h3 : t.id = s.id := by simpa using hq
      have h4 : b.source = b.target := by rw [← e1, ← h3, e2]
      rw [h4] at hs
      have hst : s = t := Option.some.inj (hs.symm.trans ht)
      apply hlen
      rw [hst]
      simp [vec.sub, vec.len]
  have hSfold := getMinAngle_s atoms bonds b s t
    (vec.sub ⟨t.x, t.y⟩ ⟨s.x, s.y⟩)
  have hTfold := getMinAngle_t atoms bonds b s t
    (vec.sub ⟨t.x, t.y⟩ ⟨s.x, s.y⟩) hid2
  have hbridge : doubleBondSeg atoms bonds b s t =
      offsetSeg s t (vec.norm (vec.sub ⟨t.x, t.y⟩ ⟨s.x, s.y⟩))
        ⟨-(vec.norm (vec.sub ⟨t.x, t.y⟩ ⟨s.x, s.y⟩)).y,
         (vec.norm (vec.sub ⟨t.x, t.y⟩ ⟨s.x, s.y⟩)).x⟩
        (vec.len (vec.sub ⟨t.x, t.y⟩ ⟨s.x, s.y⟩)) 6
        (minAngleFold (vec.sub ⟨t.x, t.y⟩ ⟨s.x, s.y⟩)
          (vec.sub ⟨t.x, t.y⟩ ⟨s.x, s.y⟩)
          (neighborVecs atoms bonds b s.id ⟨s.x, s.y⟩))
        (minAngleFold (vec.sub ⟨t.x, t.y⟩ ⟨s.x, s.y⟩)
          (vec.scale (vec.sub ⟨t.x, t.y⟩ ⟨s.x, s.y⟩) (-1))
          (neighborVecs atoms bonds b t.id ⟨t.x, t.y⟩))
        (decide
          (amendedSideScore s t (neighborVecs atoms bonds b s.id ⟨s.x, s.y⟩)
            (neighborVecs atoms bonds b t.id ⟨t.x, t.y⟩) true <
           amendedSideScore s t (neighborVecs atoms bonds b s.id ⟨s.x, s.y⟩)
            (neighborVecs atoms bonds b t.id ⟨t.x, t.y⟩) false)) := by
    simp only [doubleBondSeg]
    rw [hSfold, hTfold]
    congr 1
    rw [decide_eq_decide]
    rw [fold_side_right (vec.sub ⟨t.x, t.y⟩ ⟨s.x, s.y⟩)
        (vec.sub ⟨t.x, t.y⟩ ⟨s.x, s.y⟩)
        (neighborVecs atoms bonds b s.id ⟨s.x, s.y⟩),
      fold_side_right (vec.sub ⟨t.x, t.y⟩ ⟨s.x, s.y⟩)
        (vec.scale (vec.sub ⟨t.x, t.y⟩ ⟨s.x, s.y⟩) (-1))
        (neighborVecs atoms bonds b t.id ⟨t.x, t.y⟩),
      fold_side_left (vec.sub ⟨t.x, t.y⟩ ⟨s.x, s.y⟩)
        (vec.sub ⟨t.x, t.y⟩ ⟨s.x, s.y⟩)
        (neighborVecs atoms bonds b s.id ⟨s.x, s.y⟩),
      fold_side_left (vec.sub ⟨t.x, t.y⟩ ⟨s.x, s.y⟩)
        (vec.scale (vec.sub ⟨t.x, t.y⟩ ⟨s.x, s.y⟩) (-1))
        (neighborVecs atoms bonds b t.id ⟨t.x, t.y⟩)]
    rw [amendedSideScore, amendedSideScore]
  have hlp : 0 < vec.len (vec.sub ⟨t.x, t.y⟩ ⟨s.x, s.y⟩) :=
    lt_of_le_of_ne (Real.sqrt_nonneg _) (Ne.symm hlen)
  refine ⟨doubleBondSeg atoms bonds b s t,
    getBondCoords_double atoms bonds b s t hs ht h2 hC, ?_, ?_,
    fun atoms2 bonds2 ha hb => by rw [ha, hb]⟩
  · intro hlt
    rw [hbridge, cross_offsetSeg_start s t _ hlen]
    rw [decide_eq_true hlt, if_pos rfl]
    exact mul_pos (by norm_num) hlp
  · intro hnlt
    rw [hbridge, cross_offsetSeg_start s t _ hlen]
    rw [decide_eq_false hnlt]
    rw [if_neg (by simp : ¬ (false : Bool) = true)]
    exact mul_neg_of_neg_of_pos (by norm_num) hlp

theorem sqrt3_pos : (0 : ℝ) < Real.sqrt 3 := Real.sqrt_pos.mpr (by norm_num)

theorem sqrt3_lt_2 : Real.sqrt 3 < 2 := by
  have h := Real.sqrt_lt_sqrt (by norm_num : (0:ℝ) ≤ 3) (by norm_num : (3:ℝ) < 4)
  calc Real.sqrt 3 < Real.sqrt 4 := h
    _ = 2 := by
        rw [show (4:ℝ) = 2 ^ 2 by norm_num, Real.sqrt_sq (by norm_num)]

theorem sqrt3_mul_self : Real.sqrt 3 * Real.sqrt 3 = 3 :=
  Real.mul_self_sqrt (by norm_num)

theorem len_100 : vec.len ⟨100, 0⟩ = 100 := by
  rw [vec.len]
  norm_num
  rw [show (10000 : ℝ) = 100 ^ 2 by norm_num, Real.sqrt_sq (by norm_num)]

theorem len_n100 : vec.len ⟨-100, 0⟩ = 100 := by
  rw [vec.len]
  norm_num
  rw [show (10000 : ℝ) = 100 ^ 2 by norm_num, Real.sqrt_sq (by norm_num)]

theorem len_u : vec.len ⟨1, Real.sqrt 3⟩ = 2 := by
  rw [vec.len]
  simp only
  rw [sqrt3_mul_self]
  rw [show (1 : ℝ) * 1 + 3 = 2 ^ 2 by norm_num, Real.sqrt_sq (by norm_num)]

theorem len_nu : vec.len ⟨-1, -Real.sqrt 3⟩ = 2 := by
  rw [vec.len]
  simp only
  rw [show -(1:ℝ) * -1 + -Real.sqrt 3 * -Real.sqrt 3 =
    Real.sqrt 3 * Real.sqrt 3 + 1 by ring, sqrt3_mul_self]
  rw [show (3 : ℝ) + 1 = 2 ^ 2 by norm_num, Real.sqrt_sq (by norm_num)]

theorem norm_100 : vec.norm ⟨100, 0⟩ = ⟨1, 0⟩ := by
  rw [vec.norm, if_neg (by rw [len_100]; norm_num), len_100]
  norm_num

theorem norm_n100 : vec.norm ⟨-100, 0⟩ = ⟨-1, 0⟩ := by
  rw [vec.norm, if_neg (by rw [len_n100]; norm_num), len_n100]
  norm_num

theorem norm_u : vec.norm ⟨1, Real.sqrt 3⟩ = ⟨1 / 2, Real.sqrt 3 / 2⟩ := by
  rw [vec.norm, if_neg (by rw [len_u]; norm_num), len_u]

theorem norm_nu : vec.norm ⟨-1, -Real.sqrt 3⟩ = ⟨-(1 / 2), -(Real.sqrt 3 / 2)⟩ := by
  rw [vec.norm, if_neg (by rw [len_nu]; norm_num), len_nu]
  norm_num
  ring

theorem arccos_half : Real.arccos (1 / 2) = Real.pi / 3 := by
  rw [← Real.cos_pi_div_three]
  exact Real.arccos_cos (by positivity) (by linarith [Real.pi_pos])

theorem arccos_neg_half : Real.arccos (-(1 / 2)) = 2 * Real.pi / 3 := by
  have h : -(1 / 2 : ℝ) = Real.cos (2 * Real.pi / 3) := by
    rw [show (2 * Real.pi / 3) = Real.pi - Real.pi / 3 by ring,
      Real.cos_pi_sub, Real.cos_pi_div_three]
  rw [h]
  exact Real.arccos_cos (by positivity) (by linarith [Real.pi_pos])

theorem tan_pi_div_3 : Real.tan (Real.pi / 3) = Real.sqrt 3 := by
  rw [Real.tan_eq_sin_div_cos, Real.sin_pi_div_three, Real.cos_pi_div_three]
  ring

theorem ang_ax_u : vec.angle ⟨100, 0⟩ ⟨1, Real.sqrt 3⟩ = Real.pi / 3 := by
  rw [vec.angle, norm_100, norm_u, vec.dot]
  rw [show (1:ℝ) * (1/2) + 0 * (Real.sqrt 3 / 2) = 1/2 by ring]
  rw [show max (-1 : ℝ) (min 1 (1/2)) = 1/2 by norm_num]
  exact arccos_half

theorem ang_nax_u : vec.angle ⟨-100, 0⟩ ⟨1, Real.sqrt 3⟩ = 2 * Real.pi / 3 := by
  rw [vec.angle, norm_n100, norm_u, vec.dot]
  rw [show (-1:ℝ) * (1/2) + 0 * (Real.sqrt 3 / 2) = -(1/2) by ring]
  rw [show max (-1 : ℝ) (min 1 (-(1/2))) = -(1/2) by norm_num]
  exact arccos_neg_half

theorem ang_nax_nu : vec.angle ⟨-100, 0⟩ ⟨-1, -Real.sqrt 3⟩ = Real.pi / 3 := by
  rw [vec.angle, norm_n100, norm_nu, vec.dot]
  rw [show (-1:ℝ) * (-(1/2)) + 0 * (-(Real.sqrt 3 / 2)) = 1/2 by ring]
  rw [show max (-1 : ℝ) (min 1 (1/2)) = 1/2 by norm_num]
  exact arccos_half

theorem ang_ax_nu : vec.angle ⟨100, 0⟩ ⟨-1, -Real.sqrt 3⟩ = 2 * Real.pi / 3 := by
  rw [vec.angle, norm_100, norm_nu, vec.dot]
  rw [show (1:ℝ) * (-(1/2)) + 0 * (-(Real.sqrt 3 / 2)) = -(1/2) by ring]
  rw [show max (-1 : ℝ) (min 1 (-(1/2))) = -(1/2) by norm_num]
  exact arccos_neg_half

theorem nvS : neighborVecs exAtoms exBonds exB exS.id ⟨exS.x, exS.y⟩ =
    [⟨1, Real.sqrt 3⟩] := by
  have h : neighborVecs exAtoms exBonds exB exS.id ⟨exS.x, exS.y⟩ =
      [⟨exU.x - exS.x, exU.y - exS.y⟩] := rfl
  rw [h]
  simp [exU, exS]

theorem nvT : neighborVecs exAtoms exBonds exB exT.id ⟨exT.x, exT.y⟩ = [] := rfl

theorem nv2S : neighborVecs ex2Atoms ex2Bonds exB exS.id ⟨exS.x, exS.y⟩ = [] :=
  rfl

theorem nv2T : neighborVecs ex2Atoms ex2Bonds exB exT.id ⟨exT.x, exT.y⟩ =
    [⟨1, Real.sqrt 3⟩, ⟨-1, -Real.sqrt 3⟩] := by
  have h : neighborVecs ex2Atoms ex2Bonds exB exT.id ⟨exT.x, exT.y⟩ =
      [⟨ex2R.x - exT.x, ex2R.y - exT.y⟩, ⟨ex2L.x - exT.x, ex2L.y - exT.y⟩] := rfl
  rw [h]
  simp [ex2R, ex2L, exT]
  norm_num

theorem pi3_lt_999 : Real.pi / 3 < (999 : ℝ) := by
  nlinarith [Real.pi_lt_d2]

theorem pi23_lt_999 : 2 * Real.pi / 3 < (999 : ℝ) := by
  nlinarith [Real.pi_lt_d2]

theorem foldS_ex1 : minAngleFold ⟨100, 0⟩ ⟨100, 0⟩ [⟨1, Real.sqrt 3⟩] =
    ⟨Real.pi / 3, 999, true, false⟩ := by
  rw [minAngleFold, List.foldl_cons, List.foldl_nil, minAngleStep]
  have hcr : (0 : ℝ) < vec.cross ⟨100, 0⟩ ⟨1, Real.sqrt 3⟩ := by
    rw [vec.cross]
    simp only
    nlinarith [sqrt3_pos]
  rw [if_pos hcr, ang_ax_u, if_pos pi3_lt_999]

theorem foldT_ex2 : minAngleFold ⟨100, 0⟩ ⟨-100, 0⟩
    [⟨1, Real.sqrt 3⟩, ⟨-1, -Real.sqrt 3⟩] =
    ⟨2 * Real.pi / 3, Real.pi / 3, true, true⟩ := by
  have h1 : minAngleStep ⟨100, 0⟩ ⟨-100, 0⟩ ⟨999, 999, false, false⟩
      ⟨1, Real.sqrt 3⟩ = ⟨2 * Real.pi / 3, 999, true, false⟩ := by
    rw [minAngleStep]
    have hcr : (0 : ℝ) < vec.cross ⟨100, 0⟩ ⟨1, Real.sqrt 3⟩ := by
      rw [vec.cross]
      simp only
      nlinarith [sqrt3_pos]
    rw [if_pos hcr, ang_nax_u, if_pos pi23_lt_999]
  have h2 : minAngleStep ⟨100, 0⟩ ⟨-100, 0⟩ ⟨2 * Real.pi / 3, 999, true, false⟩
      ⟨-1, -Real.sqrt 3⟩ = ⟨2 * Real.pi / 3, Real.pi / 3, true, true⟩ := by
    rw [minAngleStep]
    have hcr : ¬ (0 : ℝ) < vec.cross ⟨100, 0⟩ ⟨-1, -Real.sqrt 3⟩ := by
      rw [vec.cross]
      simp only
      nlinarith [sqrt3_pos]
    rw [if_neg hcr, ang_nax_nu, if_pos pi3_lt_999]
  rw [minAngleFold, List.foldl_cons, h1, List.foldl_cons, h2, List.foldl_nil]

theorem minAngleFold_nil (a b : V2) :
    minAngleFold a b [] = ⟨999, 999, false, false⟩ := rfl

theorem cross_ax_u_pos : (0 : ℝ) < vec.cross ⟨100, 0⟩ ⟨1, Real.sqrt 3⟩ := by
  rw [vec.cross]
  simp only
  nlinarith [sqrt3_pos]

theorem cross_ax_nu_neg : ¬ (0 : ℝ) < vec.cross ⟨100, 0⟩ ⟨-1, -Real.sqrt 3⟩ := by
  rw [vec.cross]
  simp only
  nlinarith [sqrt3_pos]

theorem pi3_le_pi : Real.pi / 3 ≤ Real.pi := by linarith [Real.pi_pos]

theorem pi23_le_pi : 2 * Real.pi / 3 ≤ Real.pi := by linarith [Real.pi_pos]

theorem sideMin_ex1_right : sideMinAngle ⟨100, 0⟩ ⟨100, 0⟩
    [⟨1, Real.sqrt 3⟩] true = Real.pi / 3 := by
  rw [sideMinAngle,
    List.filter_cons_of_pos (by rw [decide_eq_true cross_ax_u_pos]; rfl),
    List.filter_nil, List.map_cons, List.map_nil, List.foldr_cons,
    List.foldr_nil, ang_ax_u]
  exact min_eq_left pi3_le_pi

theorem shorten_ex1 : shortenAmount 6 100 ⟨Real.pi / 3, 999, true, false⟩ =
    6 * Real.sqrt 3 := by
  rw [shortenAmount]
  simp only
  rw [min_eq_left pi3_lt_999.le,
    show Real.pi / 2 - Real.pi / 3 / 2 = Real.pi / 3 by ring, tan_pi_div_3]
  rw [min_eq_right (by nlinarith [sqrt3_lt_2] : 6 * Real.sqrt 3 ≤ 100 * 0.5)]

theorem claimedTrim_pi3 : claimedTrim 6 100 (Real.pi / 3) = 2 * Real.sqrt 3 := by
  rw [claimedTrim,
    show (Real.pi - Real.pi / 3) / 2 = Real.pi / 3 by ring, tan_pi_div_3]
  rw [show (6 : ℝ) / Real.sqrt 3 = 2 * Real.sqrt 3 by
    rw [div_eq_iff sqrt3_pos.ne']
    nlinarith [sqrt3_mul_self]]
  rw [min_eq_right (by nlinarith [sqrt3_lt_2] : 2 * Real.sqrt 3 ≤ 100 * 0.5)]

theorem hv_ex : vec.sub (⟨exT.x, exT.y⟩ : V2) ⟨exS.x, exS.y⟩ = ⟨100, 0⟩ := by
  simp [exS, exT, vec.sub]

theorem hsc_ex : vec.scale (⟨100, 0⟩ : V2) (-1) = ⟨-100, 0⟩ := by
  norm_num [vec.scale]

theorem dbl_ex1 : doubleBondSeg exAtoms exBonds exB exS exT =
    ⟨6 * Real.sqrt 3, 6, 100, 6⟩ := by
  simp only [doubleBondSeg]
  rw [getMinAngle_s, getMinAngle_t exAtoms exBonds exB exS exT _ rfl]
  rw [hv_ex, hsc_ex, nvS, nvT, foldS_ex1, minAngleFold_nil, norm_100, len_100]
  simp only [eq_self_iff_true, Bool.false_eq_true, if_true, if_false]
  have hdec : decide (Real.pi / 3 + Real.pi < Real.pi + Real.pi) = true :=
    decide_eq_true (by linarith [Real.pi_pos])
  rw [hdec]
  rw [offsetSeg]
  dsimp only
  rw [shorten_ex1]
  simp [exS, exT, vec.add, vec.scale]

theorem claimedSeg_ex1 : claimedSeg exS exT [⟨1, Real.sqrt 3⟩]
    ([] : List V2) true = ⟨2 * Real.sqrt 3, 6, 100, 6⟩ := by
  simp only [claimedSeg]
  rw [hv_ex, norm_100, len_100]
  have hsh : sideHasNeighbor ⟨100, 0⟩ [⟨1, Real.sqrt 3⟩] true = true := by
    rw [sideHasNeighbor, List.any_cons, decide_eq_true cross_ax_u_pos]
    rfl
  have hsh2 : sideHasNeighbor ⟨100, 0⟩ ([] : List V2) true = false := rfl
  rw [hsh, hsh2, sideMin_ex1_right, claimedTrim_pi3]
  simp [exS, exT]

/-- Claim C1 counterexample: at a concrete order-2 bond from (0,0) to
(100,0) between carbons, with one neighbor bond at 60 degrees on the right
at the source, the renderer trims the offset line by 6·√3, while the
claim's formula `min(len/2, offset / tan((π − θ)/2))` predicts 2·√3. -/
theorem claim_C1_cex :
    getBondCoords exAtoms exBonds exB =
      some [⟨0, 0, 100, 0⟩, ⟨6 * Real.sqrt 3, 6, 100, 6⟩] ∧
    claimedSeg exS exT
      (neighborVecs exAtoms exBonds exB exS.id ⟨exS.x, exS.y⟩)
      (neighborVecs exAtoms exBonds exB exT.id ⟨exT.x, exT.y⟩) true =
      ⟨2 * Real.sqrt 3, 6, 100, 6⟩ ∧
    (⟨6 * Real.sqrt 3, 6, 100, 6⟩ : Seg) ≠ ⟨2 * Real.sqrt 3, 6, 100, 6⟩ := by
  refine ⟨?_, ?_, ?_⟩
  · rw [getBondCoords_double exAtoms exBonds exB exS exT rfl rfl rfl
      (Or.inl rfl), dbl_ex1]
    simp [exS, exT]
  · rw [nvS, nvT, claimedSeg_ex1]
  · intro h
    have h1 : 6 * Real.sqrt 3 = 2 * Real.sqrt 3 := congrArg Seg.x1 h
    nlinarith [sqrt3_pos]

theorem sideMin_nil (axis ref : V2) (r : Bool) :
    sideMinAngle axis ref [] r = Real.pi := rfl

theorem sideMin_ex2_true : sideMinAngle ⟨100, 0⟩ ⟨100, 0⟩
    [⟨1, Real.sqrt 3⟩, ⟨-1, -Real.sqrt 3⟩] true = Real.pi / 3 := by
  rw [sideMinAngle,
    List.filter_cons_of_pos (by rw [decide_eq_true cross_ax_u_pos]; rfl),
    List.filter_cons_of_neg (by rw [decide_eq_false cross_ax_nu_neg]; exact
      (by simp : ¬ ((false == true) = true))),
    List.filter_nil, List.map_cons, List.map_nil, List.foldr_cons,
    List.foldr_nil, ang_ax_u]
  exact min_eq_left pi3_le_pi

theorem sideMin_ex2_false : sideMinAngle ⟨100, 0⟩ ⟨100, 0⟩
    [⟨1, Real.sqrt 3⟩, ⟨-1, -Real.sqrt 3⟩] false = 2 * Real.pi / 3 := by
  rw [sideMinAngle,
    List.filter_cons_of_neg (by rw [decide_eq_true cross_ax_u_pos]; exact
      (by simp : ¬ ((true == false) = true))),
    List.filter_cons_of_pos (by rw [decide_eq_false cross_ax_nu_neg]; rfl),
    List.filter_nil, List.map_cons, List.map_nil, List.foldr_cons,
    List.foldr_nil, ang_ax_nu]
  exact min_eq_left pi23_le_pi

theorem shorten_ex2 : shortenAmount 6 100
    ⟨2 * Real.pi / 3, Real.pi / 3, true, true⟩ = 6 * Real.sqrt 3 := by
  rw [shortenAmount]
  simp only
  rw [min_eq_right (by linarith [Real.pi_pos] : Real.pi / 3 ≤ 2 * Real.pi / 3),
    show Real.pi / 2 - Real.pi / 3 / 2 = Real.pi / 3 by ring, tan_pi_div_3]
  rw [min_eq_right (by nlinarith [sqrt3_lt_2] : 6 * Real.sqrt 3 ≤ 100 * 0.5)]

theorem dbl_ex2 : doubleBondSeg ex2Atoms ex2Bonds exB exS exT =
    ⟨0, -6, 100 - 6 * Real.sqrt 3, -6⟩ := by
  simp only [doubleBondSeg]
  rw [getMinAngle_s, getMinAngle_t ex2Atoms ex2Bonds exB exS exT _ rfl]
  rw [hv_ex, hsc_ex, nv2S, nv2T, minAngleFold_nil, foldT_ex2, norm_100,
    len_100]
  simp only [eq_self_iff_true, Bool.false_eq_true, if_true, if_false]
  have hdec : decide (Real.pi + 2 * Real.pi / 3 < Real.pi + Real.pi / 3) =
      false := decide_eq_false (by intro h; nlinarith [Real.pi_pos])
  rw [hdec]
  rw [offsetSeg]
  dsimp only
  rw [shorten_ex2]
  simp [exS, exT, vec.sub, vec.scale]

/-- Claim C2 counterexample: at a concrete order-2 bond from (0,0) to
(100,0) between carbons, with two neighbor bonds at the target endpoint (at
60 degrees on the right and 120 degrees on the left of the axis), the
claim's scoring — angles measured against the axis vector itself at both
endpoints — prefers the right side, yet the renderer places the offset
segment on the left side of the axis. -/
theorem claim_C2_cex :
    getBondCoords ex2Atoms ex2Bonds exB =
      some [⟨0, 0, 100, 0⟩, ⟨0, -6, 100 - 6 * Real.sqrt 3, -6⟩] ∧
    claimedSideScore exS exT
      (neighborVecs ex2Atoms ex2Bonds exB exS.id ⟨exS.x, exS.y⟩)
      (neighborVecs ex2Atoms ex2Bonds exB exT.id ⟨exT.x, exT.y⟩) true <
    claimedSideScore exS exT
      (neighborVecs ex2Atoms ex2Bonds exB exS.id ⟨exS.x, exS.y⟩)
      (neighborVecs ex2Atoms ex2Bonds exB exT.id ⟨exT.x, exT.y⟩) false ∧
    vec.cross ⟨100, 0⟩ ⟨0 - exS.x, -6 - exS.y⟩ < 0 := by
  refine ⟨?_, ?_, ?_⟩
  · rw [getBondCoords_double ex2Atoms ex2Bonds exB exS exT rfl rfl rfl
      (Or.inl rfl), dbl_ex2]
    simp [exS, exT]
  · rw [nv2S, nv2T]
    simp only [claimedSideScore]
    rw [hv_ex, sideMin_nil, sideMin_nil, sideMin_ex2_true, sideMin_ex2_false]
    linarith [Real.pi_pos]
  · rw [vec.cross]
    simp [exS]

/-- Claim C1 witness: the amended claim instantiated at the concrete
configuration of the counterexample. -/
theorem claim_C1_witness :
    ∃ offs : List Seg,
      getBondCoords exAtoms exBonds exB =
        some (⟨exS.x, exS.y, exT.x, exT.y⟩ :: offs) ∧
      offs ≠ [] ∧
      ∀ seg ∈ offs, ∃ dr : Bool,
        seg = amendedSeg exS exT
          (neighborVecs exAtoms exBonds exB exS.id ⟨exS.x, exS.y⟩)
          (neighborVecs exAtoms exBonds exB exT.id ⟨exT.x, exT.y⟩) dr :=
  claim_C1_thm exAtoms exBonds exB exS exT rfl rfl (Or.inl rfl) (Or.inl rfl)

/-- Claim C2 witness: the amended claim instantiated at the concrete
configuration of the counterexample. -/
theorem claim_C2_witness :
    ∃ seg : Seg,
      getBondCoords ex2Atoms ex2Bonds exB =
        some [⟨exS.x, exS.y, exT.x, exT.y⟩, seg] ∧
      (amendedSideScore exS exT
          (neighborVecs ex2Atoms ex2Bonds exB exS.id ⟨exS.x, exS.y⟩)
          (neighborVecs ex2Atoms ex2Bonds exB exT.id ⟨exT.x, exT.y⟩) true <
        amendedSideScore exS exT
          (neighborVecs ex2Atoms ex2Bonds exB exS.id ⟨exS.x, exS.y⟩)
          (neighborVecs ex2Atoms ex2Bonds exB exT.id ⟨exT.x, exT.y⟩) false →
        0 < vec.cross (vec.sub ⟨exT.x, exT.y⟩ ⟨exS.x, exS.y⟩)
          ⟨seg.x1 - exS.x, seg.y1 - exS.y⟩) ∧
      (¬ (amendedSideScore exS exT
          (neighborVecs ex2Atoms ex2Bonds exB exS.id ⟨exS.x, exS.y⟩)
          (neighborVecs ex2Atoms ex2Bonds exB exT.id ⟨exT.x, exT.y⟩) true <
        amendedSideScore exS exT
          (neighborVecs ex2Atoms ex2Bonds exB exS.id ⟨exS.x, exS.y⟩)
          (neighborVecs ex2Atoms ex2Bonds exB exT.id ⟨exT.x, exT.y⟩) false) →
        vec.cross (vec.sub ⟨exT.x, exT.y⟩ ⟨exS.x, exS.y⟩)
          ⟨seg.x1 - exS.x, seg.y1 - exS.y⟩ < 0) ∧
      (∀ atoms2 bonds2, atoms2 = ex2Atoms → bonds2 = ex2Bonds →
        getBondCoords atoms2 bonds2 exB = getBondCoords ex2Atoms ex2Bonds exB) :=
  claim_C2_thm ex2Atoms ex2Bonds exB exS exT rfl rfl rfl (Or.inl rfl)
    (by rw [hv_ex, len_100]; norm_num)

end NanoMol
